import Mathlib

/-!
# dingo `task/invoke.go`: the reflective argument converter and the invoker

A shallow embedding of `src/task/invoke.go` and of the fragment of Go's `reflect`
library the file runs on, followed by the properties of the specification.

The fragment of Go modelled here:

* types are identified with their underlying types (a defined type `type T U` is `U`), so
  that two types that are not convertible here are not convertible in Go, whatever their
  names, while two types that are convertible here are convertible in Go when no defined
  type stands between them;
* a type is a finite tree: a Go type that refers to itself (`type T struct { *T }`) is
  none, and stands here by its unfoldings, `selfEmbed`;
* scalar kinds next to sequences, mappings and records: `bool`, `int`, `int64`, `uint`
  (64-bit two's complement) and `string`; scalars of all the basic kinds, floating point
  and complex numbers and the integers of all widths included, have `convert` to
  themselves, as `convertBasic`; arrays are left out;
* the only interface type is the empty interface `interface{}`;
* maps are keyed by `string`, as the mappings of the specification are;
* pointers are trees: a non-nil pointer is the value it points to, in a box; the converter
  only reads its input and only writes boxes it has allocated itself;
* a nil slice or nil map and an empty one are not told apart (the code never tests them);
* a handler is a function, variadic or not, given by its parameter types, its result
  types and its body; `Call` of package reflect tests the arguments and, for a variadic
  function, makes the slice of the variadic parameter;
* `ConvertibleTo` and `Convert` follow `convertOp` of package reflect, struct tags being
  ignored when two types are compared (Go 1.8 and later).

A method that returns `(reflect.Value, error)` is a function to `Value × Option Err`: Go
returns both, and `convert` returns a value next to a non-nil error. A method that
changes the value `r` it is given and returns `error` is a function to the new `r` and the
error. A loop is a recursive function over what is left to visit.
-/

namespace Dingo

/-! ## Types (`reflect.Type`) -/

/-- The `reflect.Kind` of a type, `Invalid` being the kind of the zero `reflect.Value`. -/
inductive Kind
  | Invalid | Bool | Int | Int64 | Uint | String | Interface | Ptr | Slice | Map | Struct
  | Func | Chan
  deriving DecidableEq, Repr

/-- A `reflect.StructField`: `JsonTag` is the value of `Tag.Get("json")`, `Exported` says
that `PkgPath` is empty, `Typ` is the field `Type`. -/
structure StructField (τ : Type) where
  Name : String
  JsonTag : String
  Anonymous : Bool
  Exported : Bool
  Typ : τ

/-- A `reflect.Type`, up to the name of the type. `map e` is `map[string]e`, `func sig` is
the function type with signature number `sig`. -/
inductive GoType
  | bool | int | int64 | uint | string
  | iface
  | ptr (elem : GoType)
  | slice (elem : GoType)
  | map (elem : GoType)
  | struct (fields : List (StructField GoType))
  | func (sig : Nat)
  | chan (elem : GoType)

/-- A field of a struct type. -/
abbrev Field := StructField GoType

/-- Method `t.Kind()`. -/
def GoType.Kind : GoType → Kind
  | .bool => .Bool
  | .int => .Int
  | .int64 => .Int64
  | .uint => .Uint
  | .string => .String
  | .iface => .Interface
  | .ptr _ => .Ptr
  | .slice _ => .Slice
  | .map _ => .Map
  | .struct _ => .Struct
  | .func _ => .Func
  | .chan _ => .Chan

/-! ## Values (`reflect.Value` and `interface{}`) -/

/-- The data a value holds, without its type. Integers of the three integer kinds are
`int n`; a non-nil interface holds a dynamic type and its data; a non-nil pointer holds
the data of its pointee; `slice`, `map` and `struct` hold elements, entries (in the order
`MapKeys` returns them) and field values; `ref n` is a non-scalar handle (a function or a
channel). -/
inductive Data
  | bool (b : Bool)
  | int (n : Int)
  | str (s : String)
  | nilIface
  | iface (t : GoType) (d : Data)
  | nilPtr
  | ptr (d : Data)
  | slice (xs : List Data)
  | map (kvs : List (String × Data))
  | struct (fs : List Data)
  | ref (n : Nat)

/-- A `reflect.Value`: the zero Value, or a type and data. -/
inductive Value
  | invalid
  | mk (typ : GoType) (data : Data)

/-- A value of static type `interface{}` as Go code holds it: `nil`, or a dynamic type
and its data. -/
inductive Iface
  | nil
  | dyn (typ : GoType) (data : Data)

/-- The errors of `invoke.go`, one constructor per `errors.New` call, with the values its
format string prints. -/
inductive Err
  /-- `"Parameter Count mismatch: %v %v"` -/
  | ParameterCountMismatch (got want : Nat)
  /-- `"Can't pass nil for non-ptr parameter"` -/
  | NilForNonPtr
  /-- `"Only Slice not %v convertible to slice"` -/
  | OnlySliceToSlice (k : Kind)
  /-- `"Only Map not %v convertible to map"` -/
  | OnlyMapToMap (k : Kind)
  /-- `"Only Map not %v convertible to struct"` -/
  | OnlyMapToStruct (k : Kind)
  /-- `"Invalid value returned from map by key: %v"` -/
  | InvalidMapKey (ft : Field)
  /-- `"Unsupported Element Type: %v"` -/
  | UnsupportedElementType (k : Kind)

/-- Function `reflect.ValueOf`. -/
def ValueOf : Iface → Value
  | .nil => .invalid
  | .dyn t d => .mk t d

/-- Method `v.IsValid()`. -/
def Value.IsValid : Value → Bool
  | .invalid => false
  | .mk _ _ => true

/-- Method `v.Kind()`. -/
def Value.Kind : Value → Kind
  | .invalid => .Invalid
  | .mk t _ => t.Kind

/-- Method `v.Interface()`: the dynamic value of an interface value, any other value as
it is. -/
def Value.Interface : Value → Iface
  | .invalid => .nil
  | .mk .iface (.iface t d) => .dyn t d
  | .mk .iface _ => .nil
  | .mk t d => .dyn t d

mutual
/-- The data of the zero value of a type. -/
def ZeroData : GoType → Data
  | .bool => .bool false
  | .int => .int 0
  | .int64 => .int 0
  | .uint => .int 0
  | .string => .str ""
  | .iface => .nilIface
  | .ptr _ => .nilPtr
  | .slice _ => .slice []
  | .map _ => .map []
  | .struct fs => .struct (ZeroFields fs)
  | .func _ => .ref 0
  | .chan _ => .ref 0
/-- The zero values of the fields of a struct type. -/
def ZeroFields : List Field → List Data
  | [] => []
  | f :: rest => ZeroData f.Typ :: ZeroFields rest
end

/-- The data of a value. -/
def Value.data : Value → Data
  | .mk _ d => d
  | .invalid => .nilIface

/-- Function `reflect.Zero`. -/
def Zero (t : GoType) : Value := .mk t (ZeroData t)

/-- Function `reflect.New`: a pointer to a fresh zero value of `t`. -/
def New (t : GoType) : Value := .mk (.ptr t) (.ptr (ZeroData t))

/-- Method `v.Elem()` of a pointer or an interface. -/
def Value.Elem : Value → Value
  | .mk (.ptr t) (.ptr d) => .mk t d
  | .mk .iface (.iface t d) => .mk t d
  | _ => .invalid

/-- Method `v.Addr()`, for a value that lives in a box: the pointer to that box. -/
def Value.Addr : Value → Value
  | .mk t d => .mk (.ptr t) (.ptr d)
  | .invalid => .invalid

/-- Method `r.Set(x)`: `r` holds the data of `x` and keeps its own type. -/
def Value.Set (r x : Value) : Value :=
  match r, x with
  | .mk t _, .mk _ d => .mk t d
  | r, _ => r

/-- Function `reflect.MakeSlice(rt, 0, n)`: an empty slice. -/
def MakeSlice (rt : GoType) (_len _cap : Nat) : Value := .mk rt (.slice [])

/-- Function `reflect.MakeMap`. -/
def MakeMap (rt : GoType) : Value := .mk rt (.map [])

/-- Method `v.Len()` of a slice. -/
def Value.Len : Value → Nat
  | .mk _ (.slice xs) => xs.length
  | _ => 0

/-- Method `v.Index(i)` of a slice. -/
def Value.Index : Value → Nat → Value
  | .mk (.slice e) (.slice xs), i =>
    match xs[i]? with
    | some d => .mk e d
    | none => .invalid
  | _, _ => .invalid

/-- The values `v.Index(0)`, ..., `v.Index(v.Len()-1)` of a slice. -/
def Value.elems : Value → List Value
  | .mk (.slice e) (.slice xs) => xs.map (Value.mk e)
  | _ => []

/-- Function `reflect.Append(r, c)`. -/
def Append (r c : Value) : Value :=
  match r, c with
  | .mk t (.slice xs), .mk _ d => .mk t (.slice (xs ++ [d]))
  | r, _ => r

/-- Method `v.MapKeys()`: the keys, in the order of the entries. -/
def Value.MapKeys : Value → List String
  | .mk (.map _) (.map kvs) => kvs.map Prod.fst
  | _ => []

/-- Method `v.MapIndex(reflect.ValueOf(k))`: the zero Value when the key is absent. -/
def Value.MapIndex : Value → String → Value
  | .mk (.map e) (.map kvs), k =>
    match kvs.lookup k with
    | some d => .mk e d
    | none => .invalid
  | _, _ => .invalid

/-- Sets the entry of key `k`, replacing an entry there is. -/
def setEntry (k : String) (d : Data) : List (String × Data) → List (String × Data)
  | [] => [(k, d)]
  | (k', d') :: rest => if k' = k then (k, d) :: rest else (k', d') :: setEntry k d rest

/-- Method `r.SetMapIndex(k, c)`. -/
def Value.SetMapIndex (r : Value) (k : String) (c : Value) : Value :=
  match r, c with
  | .mk t (.map kvs), .mk _ d => .mk t (.map (setEntry k d kvs))
  | r, _ => r

/-- Method `r.Field(i)` of a struct value of type `struct fields`. -/
def Value.Field : Value → Nat → Value
  | .mk (.struct fields) (.struct ds), i =>
    match fields[i]?, ds[i]? with
    | some f, some d => .mk f.Typ d
    | _, _ => .invalid
  | _, _ => .invalid

/-- The effect of `r.Field(i).Set(c)` on the struct `r`. -/
def Value.SetField (r : Value) (i : Nat) (c : Value) : Value :=
  match r, c with
  | .mk t (.struct ds), .mk _ d => .mk t (.struct (ds.set i d))
  | r, _ => r

/-! ## Conversion (`Type.ConvertibleTo`, `Value.Convert`) -/

mutual
/-- Function `haveIdenticalUnderlyingType(T, V, false)` of package reflect: the two types
have the same structure, struct tags not compared. -/
def haveIdenticalUnderlyingType : GoType → GoType → Bool
  | .bool, .bool => true
  | .int, .int => true
  | .int64, .int64 => true
  | .uint, .uint => true
  | .string, .string => true
  | .iface, .iface => true
  | .ptr a, .ptr b => haveIdenticalUnderlyingType a b
  | .slice a, .slice b => haveIdenticalUnderlyingType a b
  | .map a, .map b => haveIdenticalUnderlyingType a b
  | .chan a, .chan b => haveIdenticalUnderlyingType a b
  | .func a, .func b => a == b
  | .struct fs, .struct gs => haveIdenticalFields fs gs
  | _, _ => false
/-- The struct case of `haveIdenticalUnderlyingType`: as many fields, with the same names,
identical types and the same embedding. -/
def haveIdenticalFields : List Field → List Field → Bool
  | [], [] => true
  | f :: fs, g :: gs =>
    f.Name == g.Name && f.Exported == g.Exported && haveIdenticalUnderlyingType f.Typ g.Typ
      && f.Anonymous == g.Anonymous && haveIdenticalFields fs gs
  | _, _ => false
end

/-- Function `implements(T, V)` for the one interface type of the fragment: every type
implements the empty interface. -/
def implements (T _V : GoType) : Bool := T.Kind == .Interface

/-- The conversion functions `convertOp` chooses from. -/
inductive ConvOp
  | cvtInt | cvtUint | cvtIntString | cvtUintString | cvtDirect | cvtT2I | cvtI2I
  deriving DecidableEq, Repr

/-- The `switch src.Kind()` at the head of `convertOp`: the conversions between integer
kinds and from an integer to a string. -/
def kindOp (src dst : Kind) : Option ConvOp :=
  match src with
  | .Int | .Int64 =>
    match dst with
    | .Int | .Int64 | .Uint => some .cvtInt
    | .String => some .cvtIntString
    | _ => none
  | .Uint =>
    match dst with
    | .Int | .Int64 | .Uint => some .cvtUint
    | .String => some .cvtUintString
    | _ => none
  | _ => none

/-- Function `convertOp(dst, src)` of package reflect: the conversion from `src` to `dst`,
`none` when there is none. -/
def convertOp (dst src : GoType) : Option ConvOp :=
  match kindOp src.Kind dst.Kind with
  | some op => some op
  | none =>
    if haveIdenticalUnderlyingType dst src then some .cvtDirect
    else if implements dst src then
      (if src.Kind = .Interface then some .cvtI2I else some .cvtT2I)
    else none

/-- Method `src.ConvertibleTo(dst)`. -/
def GoType.ConvertibleTo (src dst : GoType) : Bool := (convertOp dst src).isSome

/-- The 64 bits of an integer, read as unsigned. -/
def wrapU64 (n : Int) : Int := n % 2 ^ 64

/-- The 64 bits of an integer, read as signed. -/
def wrapI64 (n : Int) : Int := (n + 2 ^ 63) % 2 ^ 64 - 2 ^ 63

/-- The 32 low bits of an integer, read as signed: the conversion `rune(x)`. -/
def wrapI32 (n : Int) : Int := (n + 2 ^ 31) % 2 ^ 32 - 2 ^ 31

/-- Methods `v.Int()` and `v.Uint()`: the integer a value holds. -/
def Value.Int : Value → Int
  | .mk _ (.int n) => n
  | _ => 0

/-- Function `makeInt(f, bits, t)`: the integer of type `t` with the given 64 bits. -/
def makeInt (bits : Int) (t : GoType) : Value :=
  if t.Kind = .Uint then .mk t (.int (wrapU64 bits)) else .mk t (.int (wrapI64 bits))

/-- The Go conversion `string(rune(x))`: the one-character string of a Unicode scalar
value, the replacement character U+FFFD for any other number. -/
def runeString (x : Int) : String :=
  if 0 ≤ x ∧ x.toNat.isValidChar then String.singleton (Char.ofNat x.toNat)
  else String.singleton (Char.ofNat 0xFFFD)

/-- Functions `cvtIntString` and `cvtUintString`: U+FFFD unless `x` is a rune. -/
def cvtString (x : Int) : String :=
  if wrapI32 x = x then runeString x else String.singleton (Char.ofNat 0xFFFD)

/-- Method `v.Convert(t)`, for a valid `v` whose type is convertible to `t` (Go panics
otherwise; here the value is returned as it is). -/
def Value.Convert (v : Value) (t : GoType) : Value :=
  match v with
  | .invalid => .invalid
  | .mk vt d =>
    match convertOp t vt with
    | some .cvtInt => makeInt (wrapU64 v.Int) t
    | some .cvtUint => makeInt v.Int t
    | some .cvtIntString => .mk t (.str (cvtString v.Int))
    | some .cvtUintString => .mk t (.str (cvtString v.Int))
    | some .cvtDirect => .mk t d
    | some .cvtT2I => .mk t (.iface vt d)
    | some .cvtI2I =>
      match d with
      | .iface et ed => .mk t (.iface et ed)
      | _ => Zero t
    | none => v

/-! ## `invoke.go` -/

/-- Function `strings.Trim(s, "\"")`: `s` without its leading and trailing double
quotes. -/
def trimQuotes (s : String) : String :=
  String.mk (((s.data.dropWhile (· == Char.ofNat 34)).reverse.dropWhile
    (· == Char.ofNat 34)).reverse)

/-- The first element of `strings.Split(s, ",")`: `s` up to its first comma. -/
def firstSegment (s : String) : String :=
  String.mk (s.data.takeWhile (· != Char.ofNat 44))

/-- The key `convert2struct` looks a named field up with (lines 98 to 109):
the first segment of the json tag, the field name when that is empty or `-`. -/
def lookupKey (ft : Field) : String :=
  let key := ft.JsonTag
  let key :=
    if key ≠ "" then
      let key := trimQuotes key
      let key := firstSegment key
      if key = "-" then "" else key
    else key
  if key = "" then ft.Name else key

/-- The loop `for ; t.Kind() == reflect.Ptr; deref++` of `convert` (lines 156 to 160), as
a function of `t` and `deref`: the final `deref` and `t`. Each pass allocates one box
inside the previous one, so the boxes are `deref` pointers, one in the next, around the
value `elm` of the final type. -/
def derefLoop : GoType → Nat → Nat × GoType
  | .ptr e, deref => derefLoop e (deref + 1)
  | t, deref => (deref, t)

/-- The loop `for deref--; deref > 0; deref-- { ret = ret.Addr() }` of `convert`, as a
function of the number of passes. -/
def addrLoop : Nat → Value → Value
  | 0, ret => ret
  | n + 1, ret => addrLoop n ret.Addr

/-- Lines 132 to 150 of `convert`: the result it returns there, or the value `v` (taken
out of its interface, when it was in one) it goes on with. -/
def convertHead (v : Value) (t : GoType) : (Value × Option Err) ⊕ Value :=
  match v with
  | .invalid => .inr v
  | .mk vt _ =>
    if vt.Kind = .Interface then
      match v.Interface with
      | .nil => .inl (Zero t, if t.Kind ≠ .Ptr then some .NilForNonPtr else none)
      | .dyn vt' d' =>
        if vt'.ConvertibleTo t then .inl ((Value.mk vt' d').Convert t, none)
        else .inr (.mk vt' d')
    else if vt.ConvertibleTo t then .inl (v.Convert t, none)
    else .inr v

theorem derefLoop_sizeOf : ∀ (t : GoType) (n : Nat), sizeOf (derefLoop t n).2 ≤ sizeOf t
  | .ptr e, n => by
    have h := derefLoop_sizeOf e (n + 1)
    simp only [derefLoop, GoType.ptr.sizeOf_spec]
    omega
  | .bool, _ | .int, _ | .int64, _ | .uint, _ | .string, _ | .iface, _ | .slice _, _
  | .map _, _ | .struct _, _ | .func _, _ | .chan _, _ => by simp [derefLoop]

theorem sizeOf_Typ_lt (f : Field) (rest : List Field) : sizeOf f.Typ < sizeOf (f :: rest) := by
  cases f
  simp only [List.cons.sizeOf_spec, StructField.mk.sizeOf_spec]
  omega

theorem sizeOf_rest_lt (f : Field) (rest : List Field) : sizeOf rest < sizeOf (f :: rest) := by
  simp only [List.cons.sizeOf_spec]
  omega

mutual
/-- Method `convert`: the value and the error it returns. After the loop over the
pointers, `ret` is the pointer to the innermost fresh box, of the final type `t'`, and
`elm` the value in that box; the three `convert2...` methods write into `elm` through
`r`, which is rendered by their returning the new `r`. -/
def convert (v : Value) (t : GoType) : Value × Option Err :=
  match convertHead v t with
  | .inl res => res
  | .inr v =>
    -- lines 152 to 160
    match h : derefLoop t 0 with
    | (deref, t') =>
      let ret := New t'
      -- line 161
      let elm := ret.Elem
      -- lines 163 to 172
      let res :=
        match elm.Kind with
        | .Struct => convert2struct v elm t'
        | .Map => convert2map v elm t'
        | .Slice => convert2slice v elm t'
        | k => (elm, some (.UnsupportedElementType k))
      let ret := res.1.Addr
      -- lines 174 to 183
      if deref = 0 then (ret.Elem, res.2) else (addrLoop (deref - 1) ret, res.2)
termination_by (sizeOf t, 2, 0)
decreasing_by
  all_goals have hs := derefLoop_sizeOf t 0
  all_goals rw [h] at hs
  all_goals simp only at hs
  all_goals rcases Nat.lt_or_eq_of_le hs with hlt | heq
  all_goals first
    | exact Prod.Lex.left _ _ hlt
    | (rw [heq]; exact Prod.Lex.right _ (Prod.Lex.left _ _ (by decide)))

/-- Method `convert2slice`: the slice `r` it leaves and the error it returns. -/
def convert2slice (v r : Value) (rt : GoType) : Value × Option Err :=
  if v.Kind ≠ .Slice then (r, some (.OnlySliceToSlice v.Kind))
  else
    match rt with
    | .slice et => convert2sliceLoop et v.elems (r.Set (MakeSlice rt 0 v.Len))
    | _ => (r, none)
termination_by (sizeOf rt, 1, 0)
decreasing_by
  simp_wf
  rw [Nat.add_comm]
  exact Prod.Lex.right _ (Prod.Lex.left _ _ (by decide))

/-- The loop of `convert2slice` (lines 42 to 50) over the elements `xs` still to convert,
`et` being `rt.Elem()`. -/
def convert2sliceLoop (et : GoType) (xs : List Value) (r : Value) : Value × Option Err :=
  match xs with
  | [] => (r, none)
  | x :: rest =>
    match convert x et with
    | (_, some err_) => (r, some err_)
    | (converted, none) => convert2sliceLoop et rest (Append r converted)
termination_by (sizeOf et + 1, 0, xs.length)
decreasing_by
  · simp_wf
    exact Prod.Lex.left _ _ (Nat.lt_succ_self _)
  · simp_wf
    exact Prod.Lex.right _ (Prod.Lex.right _ (Nat.lt_succ_self _))

/-- Method `convert2map`: the map `r` it leaves and the error it returns. -/
def convert2map (v r : Value) (rt : GoType) : Value × Option Err :=
  if v.Kind ≠ .Map then (r, some (.OnlyMapToMap v.Kind))
  else
    match rt with
    | .map et => convert2mapLoop v et v.MapKeys (r.Set (MakeMap rt))
    | _ => (r, none)
termination_by (sizeOf rt, 1, 0)
decreasing_by
  simp_wf
  rw [Nat.add_comm]
  exact Prod.Lex.right _ (Prod.Lex.left _ _ (by decide))

/-- The loop of `convert2map` (lines 65 to 74) over the keys still to convert, `et` being
`rt.Elem()`. -/
def convert2mapLoop (v : Value) (et : GoType) (keys : List String) (r : Value) :
    Value × Option Err :=
  match keys with
  | [] => (r, none)
  | k :: rest =>
    match convert (v.MapIndex k) et with
    | (_, some err_) => (r, some err_)
    | (converted, none) => convert2mapLoop v et rest (r.SetMapIndex k converted)
termination_by (sizeOf et + 1, 0, keys.length)
decreasing_by
  · simp_wf
    exact Prod.Lex.left _ _ (Nat.lt_succ_self _)
  · simp_wf
    exact Prod.Lex.right _ (Prod.Lex.right _ (Nat.lt_succ_self _))

/-- Method `convert2struct`: the struct `r` it leaves and the error it returns. -/
def convert2struct (v r : Value) (rt : GoType) : Value × Option Err :=
  if v.Kind ≠ .Map then (r, some (.OnlyMapToStruct v.Kind))
  else
    match rt with
    | .struct fields => convert2structLoop v fields 0 r
    | _ => (r, none)
termination_by (sizeOf rt, 1, 0)
decreasing_by
  simp_wf
  exact Prod.Lex.left _ _ (by omega)

/-- The loop of `convert2struct` (lines 84 to 124) from field `i` on, `fs` being the
fields `rt.Field(i)`, `rt.Field(i+1)`, ... still to visit. -/
def convert2structLoop (v : Value) (fs : List Field) (i : Nat) (r : Value) :
    Value × Option Err :=
  match fs with
  | [] => (r, none)
  | ft :: rest =>
    if !ft.Exported then convert2structLoop v rest (i + 1) r
    else
      let res : Value × Option Err :=
        if ft.Anonymous then convert v ft.Typ
        else
          let mv := v.MapIndex (lookupKey ft)
          if !mv.IsValid then (.invalid, some (.InvalidMapKey ft))
          else convert mv ft.Typ
      match res with
      | (_, some err) => (r, some err)
      | (converted, none) => convert2structLoop v rest (i + 1) (r.SetField i converted)
termination_by (sizeOf fs, 0, 0)
decreasing_by
  all_goals first
    | exact Prod.Lex.left _ _ (sizeOf_rest_lt _ _)
    | exact Prod.Lex.left _ _ (sizeOf_Typ_lt _ _)
end

/-- Method `from`: converts the argument `val` against the parameter type `t`. -/
def from_ (val : Iface) (t : GoType) : Value × Option Err :=
  match val with
  | .nil => (Zero t, if t.Kind ≠ .Ptr then some .NilForNonPtr else none)
  | val => convert (ValueOf val) t

/-- A handler `f`: `In` and `Out` are the parameter and result types of
`reflect.TypeOf(f)`, `Variadic` is `IsVariadic()` (the last parameter type is then the
slice type of the variadic parameter), and `Body` is the function itself: the results it
returns for the values of its parameters. -/
structure Handler where
  In : List GoType
  Out : List GoType
  Variadic : Bool
  Body : List Value → List Value

mutual
/-- The comparison `T == V` of two types, which are the same type when they have the same
structure, the struct tags included. -/
def GoType.same : GoType → GoType → Bool
  | .bool, .bool => true
  | .int, .int => true
  | .int64, .int64 => true
  | .uint, .uint => true
  | .string, .string => true
  | .iface, .iface => true
  | .ptr a, .ptr b => a.same b
  | .slice a, .slice b => a.same b
  | .map a, .map b => a.same b
  | .chan a, .chan b => a.same b
  | .func a, .func b => a == b
  | .struct fs, .struct gs => sameFields fs gs
  | _, _ => false
/-- The struct case of `GoType.same`. -/
def sameFields : List Field → List Field → Bool
  | [], [] => true
  | f :: fs, g :: gs =>
    f.Name == g.Name && f.JsonTag == g.JsonTag && f.Anonymous == g.Anonymous
      && f.Exported == g.Exported && f.Typ.same g.Typ && sameFields fs gs
  | _, _ => false
end

/-- Method `V.AssignableTo(T)`: `directlyAssignable(T, V) || implements(T, V)`, the two
types being the same type or `T` the empty interface. -/
def GoType.AssignableTo (V T : GoType) : Bool := T.same V || implements T V

/-- The test `x.Type().AssignableTo(t)` of `Call` on an argument, a zero Value making
`Call` panic as well. -/
def Value.assignableTo : Value → GoType → Bool
  | .invalid, _ => false
  | .mk xt _, t => xt.AssignableTo t

/-- The value `x` as a value of the type `t` it is assigned to: put in an interface when
`t` is an interface type and `x` is not of one. -/
def Value.assignTo : Value → GoType → Value
  | .invalid, _ => .invalid
  | .mk xt d, t => if t.Kind = .Interface ∧ xt.Kind ≠ .Interface then .mk t (.iface xt d) else .mk t d

/-- The values of the parameters of the function in `reflect.ValueOf(f).Call(in)`, `none`
when `Call` panics. For a function that is not variadic there are as many arguments as
parameters, each assignable to the type of its parameter. For a variadic function with `n`
parameters before the variadic one there are `n` arguments or more, the first `n`
assignable to their parameters, and `Call` makes the slice of the variadic parameter of
the other arguments, each of which is assignable to the element type of that slice. -/
def Handler.callArgs (f : Handler) (in_ : List Value) : Option (List Value) :=
  if f.Variadic then
    let n := f.In.length - 1
    match f.In[n]? with
    | some (.slice elem) =>
      if in_.length < n then none
      else if !(List.zipWith Value.assignableTo (in_.take n) (f.In.take n)).all id then none
      else if !((in_.drop n).all (fun x => x.assignableTo elem)) then none
      else
        some (List.zipWith Value.assignTo (in_.take n) (f.In.take n)
          ++ [.mk (.slice elem) (.slice ((in_.drop n).map (fun x => (x.assignTo elem).data)))])
    | _ => none
  else
    if in_.length ≠ f.In.length then none
    else if !(List.zipWith Value.assignableTo in_ f.In).all id then none
    else some (List.zipWith Value.assignTo in_ f.In)

/-- Method `reflect.ValueOf(f).Call(in)`: the results of the function, `none` when `Call`
panics. -/
def Handler.Call (f : Handler) (in_ : List Value) : Option (List Value) :=
  (f.callArgs in_).map f.Body

/-- Method `funcT.NumIn()`. -/
def Handler.NumIn (f : Handler) : Nat := f.In.length

/-- Method `funcT.NumOut()`. -/
def Handler.NumOut (f : Handler) : Nat := f.Out.length

/-- What a run of `Invoke` returns and does: `out` is the result slice (`none` for the nil
slice), `err` the error, `calls` the argument lists of the calls of the handler (the
arguments `reflect.ValueOf(f).Call` is called with at line 231), in time order, `converted` the number of arguments that
were handed to `from`, and `panicked` says that the run ended in a panic of `Call`, in
which case `Invoke` returns nothing. -/
structure Outcome where
  out : Option (List Iface)
  err : Option Err
  calls : List (List Value)
  converted : Nat
  panicked : Bool := false

/-- The loop of `Invoke` (lines 223 to 228) over the parameter types and arguments still
to convert: the number of calls of `from`, and the error of the call that failed or the
converted arguments. -/
def convertArgs : List GoType → List Iface → Nat × (Err ⊕ List Value)
  | [], _ => (0, .inr [])
  | _ :: _, [] => (0, .inr [])
  | t :: ts, p :: ps =>
    match from_ p t with
    | (_, some err) => (1, .inl err)
    | (x, none) =>
      match convertArgs ts ps with
      | (n, .inl err) => (n + 1, .inl err)
      | (n, .inr xs) => (n + 1, .inr (x :: xs))

/-- The loop of `Invoke` (lines 237 to 241): `out[i] = ret[i].Interface()`, every result
of `Call` being one that `CanInterface`. -/
def collectOut (ret : List Value) (numOut : Nat) : List Iface :=
  (List.range numOut).map (fun i => (ret.getD i .invalid).Interface)

/-- Method `Invoke`. -/
def Invoke (f : Handler) (param : List Iface) : Outcome :=
  if param.length ≠ f.NumIn then
    { out := none, err := some (.ParameterCountMismatch param.length f.NumIn),
      calls := [], converted := 0 }
  else
    match convertArgs f.In param with
    | (n, .inl err) => { out := none, err := some err, calls := [], converted := n }
    | (n, .inr in_) =>
      match f.Call in_ with
      | none => { out := none, err := none, calls := [in_], converted := n, panicked := true }
      | some ret =>
        { out := some (collectOut ret f.NumOut), err := none, calls := [in_], converted := n }

/-- Modelled from the spec: the struct `_task` behind the interface `Task`, declared
outside of `invoke.go`. A task is an identifier, the name of the handler and the
arguments, in order. -/
structure Task where
  Id : String
  Name : String
  Args : List Iface

/-- Method `ComposeTask`, `newV4` being the string `uuid.NewV4().String()` returns at the
call. -/
def ComposeTask (newV4 : String) (name : String) (args : List Iface) : Task × Option Err :=
  ({ Id := newV4, Name := name, Args := args }, none)

/-! ## The basic kinds: `convert` on scalar values and scalar targets

The lines of `convert` a scalar value against a scalar target runs through (132 to 150,
then the default branch of the switch), over all the basic types of Go. A defined type of
a basic kind is identified with the basic type: `convertOp` tells two basic types apart by
their kinds only. `int`, `uint` and `uintptr` are 64 bits wide. A floating-point number is
its value: all NaNs are one value. -/

/-- The basic types of Go. -/
inductive Basic
  | bool | int | int8 | int16 | int32 | int64
  | uint | uint8 | uint16 | uint32 | uint64 | uintptr
  | float32 | float64 | complex64 | complex128 | string
  deriving DecidableEq, Repr

/-- The signed integer kinds, with their width in bits. -/
def Basic.intBits : Basic → Option Nat
  | .int => some 64 | .int8 => some 8 | .int16 => some 16 | .int32 => some 32
  | .int64 => some 64
  | _ => none

/-- The unsigned integer kinds, with their width in bits. -/
def Basic.uintBits : Basic → Option Nat
  | .uint => some 64 | .uint8 => some 8 | .uint16 => some 16 | .uint32 => some 32
  | .uint64 => some 64 | .uintptr => some 64
  | _ => none

/-- A floating-point value: a NaN, an infinity, or the finite number `m * 2 ^ e`, negative
when `neg` is set. A finite value is kept in its one canonical form: `m` is odd, or `m`
and `e` are both 0 (the two zeros `+0` and `-0`). -/
inductive FloatVal
  | nan
  | inf (neg : Bool)
  | fin (neg : Bool) (m : Nat) (e : Int)
  deriving DecidableEq, Repr

/-- A binary floating-point format: `prec` bits of precision, `emin` the exponent of the
smallest positive number `2 ^ emin`, and every finite number below `2 ^ top`. -/
structure FloatFmt where
  prec : Nat
  emin : Int
  top : Int

/-- Format of `float32`: IEEE 754 binary32. -/
def binary32 : FloatFmt := ⟨24, -149, 128⟩

/-- Format of `float64`: IEEE 754 binary64. -/
def binary64 : FloatFmt := ⟨53, -1074, 1024⟩

/-- The format of the floating-point kinds, and of the parts of the complex kinds. -/
def Basic.floatFmt : Basic → Option FloatFmt
  | .float32 => some binary32 | .float64 => some binary64
  | _ => none

/-- The format of the two parts of a complex kind. -/
def Basic.complexFmt : Basic → Option FloatFmt
  | .complex64 => some binary32 | .complex128 => some binary64
  | _ => none

/-- The bits of `m` counted by halving it, at most `fuel` times. -/
def bitLenAux : Nat → Nat → Nat
  | 0, _ => 0
  | fuel + 1, m => if m = 0 then 0 else bitLenAux fuel (m / 2) + 1

/-- The number of bits of `m`: the least `n` with `m < 2 ^ n`. -/
def bitLen (m : Nat) : Nat := bitLenAux m m

/-- Halves `m` while it is even, at most `fuel` times, counting the exponent up. -/
def canonAux : Nat → Nat → Int → Nat × Int
  | 0, m, e => (m, e)
  | fuel + 1, m, e => if m % 2 = 0 then canonAux fuel (m / 2) (e + 1) else (m, e)

/-- The canonical form of the number `m * 2 ^ e`. -/
def canon (m : Nat) (e : Int) : Nat × Int := if m = 0 then (0, 0) else canonAux m m e

/-- The finite numbers of a format: the canonical `m * 2 ^ e` with `m` of at most `prec`
bits, `e` not below `emin` and the number below `2 ^ top`. -/
def FloatFmt.holds (fmt : FloatFmt) (m : Nat) (e : Int) : Bool :=
  (m == 0 && e == 0) ||
    (m % 2 == 1 && decide (bitLen m ≤ fmt.prec) && decide (fmt.emin ≤ e)
      && decide (e + bitLen m ≤ fmt.top))

/-- The value of the format nearest to `m * 2 ^ e`, the one with the even last bit when two
are as near, and the infinity from `2 ^ top` on: the rounding of IEEE 754. A number of the
format is its own rounding. -/
def FloatFmt.round (fmt : FloatFmt) (neg : Bool) (m : Nat) (e : Int) : FloatVal :=
  let c := canon m e
  if fmt.holds c.1 c.2 then .fin neg c.1 c.2
  else if c.2 + bitLen c.1 > fmt.top then .inf neg
  else
    -- the exponent of the last bit kept, and the bits cut off
    let x := max fmt.emin (c.2 + bitLen c.1 - fmt.prec)
    let sh := (x - c.2).toNat
    let q0 := c.1 / 2 ^ sh
    let r := c.1 % 2 ^ sh
    let half := 2 ^ (sh - 1)
    let q := if r > half ∨ (r = half ∧ q0 % 2 = 1) then q0 + 1 else q0
    if x + bitLen q > fmt.top then .inf neg
    else .fin neg (canon q x).1 (canon q x).2

/-- A floating-point value as a value of the format: a finite number is rounded. -/
def FloatVal.roundTo (fmt : FloatFmt) : FloatVal → FloatVal
  | .nan => .nan
  | .inf s => .inf s
  | .fin s m e => fmt.round s m e

/-- The floating-point values of a format. -/
def FloatVal.isOf (fmt : FloatFmt) : FloatVal → Bool
  | .nan => true
  | .inf _ => true
  | .fin _ m e => fmt.holds m e

/-- The integer part of a finite value (the value rounded toward zero), `none` for a NaN
or an infinity. -/
def FloatVal.trunc : FloatVal → Option Int
  | .nan => none
  | .inf _ => none
  | .fin s m e =>
    let a : Nat := if 0 ≤ e then m * 2 ^ e.toNat else m / 2 ^ (-e).toNat
    some (if s then -(a : Int) else a)

/-- What the Go specification leaves to the implementation: the results of the conversions
`int64(f)` and `uint64(f)` for a floating-point `f` whose integer part the integer type
cannot represent. -/
structure Arch where
  f2i : FloatVal → Int
  f2u : FloatVal → Int

/-- The conversion `int64(f)`. -/
def toInt64 (arch : Arch) (f : FloatVal) : Int :=
  match f.trunc with
  | some a => if -2 ^ 63 ≤ a ∧ a < 2 ^ 63 then a else arch.f2i f
  | none => arch.f2i f

/-- The conversion `uint64(f)`. -/
def toUint64 (arch : Arch) (f : FloatVal) : Int :=
  match f.trunc with
  | some a => if 0 ≤ a ∧ a < 2 ^ 64 then a else arch.f2u f
  | none => arch.f2u f

/-- The data of a value of a basic type: integers of all the integer kinds are `int n`, a
complex number is its real and imaginary part. -/
inductive SData
  | bool (b : Bool)
  | int (n : Int)
  | float (x : FloatVal)
  | complex (re im : FloatVal)
  | str (s : String)
  deriving DecidableEq, Repr

/-- Typing of the data of a basic type: an integer in the range of its kind, a
floating-point value of the format of its kind. -/
def SData.hasType : SData → Basic → Bool
  | .bool _, .bool => true
  | .int n, t =>
    match t.intBits, t.uintBits with
    | some w, _ => decide (-2 ^ (w - 1) ≤ n ∧ n < 2 ^ (w - 1))
    | none, some w => decide (0 ≤ n ∧ n < 2 ^ w)
    | none, none => false
  | .float x, t =>
    match t.floatFmt with
    | some fmt => x.isOf fmt
    | none => false
  | .complex re im, t =>
    match t.complexFmt with
    | some fmt => re.isOf fmt && im.isOf fmt
    | none => false
  | .str _, .string => true
  | _, _ => false

/-- The data of the zero value of a basic type. -/
def Basic.zero : Basic → SData
  | .bool => .bool false
  | .string => .str ""
  | .float32 | .float64 => .float (.fin false 0 0)
  | .complex64 | .complex128 => .complex (.fin false 0 0) (.fin false 0 0)
  | _ => .int 0

/-- The conversion functions `convertOp` chooses from, for basic types. -/
inductive BasicOp
  | cvtInt | cvtUint | cvtIntFloat | cvtUintFloat | cvtFloatInt | cvtFloatUint | cvtFloat
  | cvtComplex | cvtIntString | cvtUintString | cvtDirect
  deriving DecidableEq, Repr

/-- Function `convertOp(dst, src)` of package reflect on basic types: the `switch
src.Kind()` with its inner switches on `dst.Kind()`, then the test of identical underlying
types, which two basic types have when they are of the same kind. -/
def Basic.convertOp (dst src : Basic) : Option BasicOp :=
  let isInt := fun k : Basic => k.intBits.isSome || k.uintBits.isSome
  let viaKind : Option BasicOp :=
    if src.intBits.isSome then
      if isInt dst then some .cvtInt
      else if dst.floatFmt.isSome then some .cvtIntFloat
      else if dst = .string then some .cvtIntString
      else none
    else if src.uintBits.isSome then
      if isInt dst then some .cvtUint
      else if dst.floatFmt.isSome then some .cvtUintFloat
      else if dst = .string then some .cvtUintString
      else none
    else if src.floatFmt.isSome then
      if dst.intBits.isSome then some .cvtFloatInt
      else if dst.uintBits.isSome then some .cvtFloatUint
      else if dst.floatFmt.isSome then some .cvtFloat
      else none
    else if src.complexFmt.isSome then
      if dst.complexFmt.isSome then some .cvtComplex else none
    else none
  match viaKind with
  | some op => some op
  | none => if dst = src then some .cvtDirect else none

/-- Method `src.ConvertibleTo(dst)`. -/
def Basic.ConvertibleTo (src dst : Basic) : Bool := (dst.convertOp src).isSome

/-- Methods `v.Int()` and `v.Uint()`. -/
def SData.Int : SData → Int
  | .int n => n
  | _ => 0

/-- Method `v.Float()`: the value as a `float64`, which holds every `float32`. -/
def SData.Float : SData → FloatVal
  | .float x => x
  | _ => .fin false 0 0

/-- Function `makeInt(f, bits, t)`: the low bits of `bits`, as many as `t` is wide, read as
a number of type `t`. -/
def Basic.makeInt (t : Basic) (bits : Int) : SData :=
  match t.intBits, t.uintBits with
  | some w, _ => .int ((bits + 2 ^ (w - 1)) % 2 ^ w - 2 ^ (w - 1))
  | none, some w => .int (bits % 2 ^ w)
  | none, none => .int bits

/-- Function `makeFloat(f, v, t)`: `float32(v)` for a `float32`, `v` for a `float64`. -/
def Basic.makeFloat (t : Basic) (v : FloatVal) : SData :=
  if t = .float32 then .float (v.roundTo binary32) else .float v

/-- Function `makeComplex(f, v, t)`: `complex64(v)` for a `complex64`, `v` for a
`complex128`. -/
def Basic.makeComplex (t : Basic) (re im : FloatVal) : SData :=
  if t = .complex64 then .complex (re.roundTo binary32) (im.roundTo binary32)
  else .complex re im

/-- The conversion `float64(n)` of an integer. -/
def intToFloat64 (n : Int) : FloatVal := binary64.round (decide (n < 0)) n.natAbs 0

/-- Method `v.Convert(t)` for a value of the basic type `k` with the data `d`, whose type
is convertible to `t`: the data of the result. -/
def SData.Convert (arch : Arch) (k : Basic) (d : SData) (t : Basic) : SData :=
  match t.convertOp k with
  | some .cvtInt => t.makeInt (wrapU64 d.Int)
  | some .cvtUint => t.makeInt d.Int
  | some .cvtIntFloat => t.makeFloat (intToFloat64 d.Int)
  | some .cvtUintFloat => t.makeFloat (intToFloat64 d.Int)
  | some .cvtFloatInt => t.makeInt (wrapU64 (toInt64 arch d.Float))
  | some .cvtFloatUint => t.makeInt (toUint64 arch d.Float)
  | some .cvtFloat =>
    -- two `float32` types: the value as it is
    if k = .float32 ∧ t = .float32 then d else t.makeFloat d.Float
  | some .cvtComplex =>
    match d with
    | .complex re im => t.makeComplex re im
    | _ => d
  | some .cvtIntString => .str (cvtString d.Int)
  | some .cvtUintString => .str (cvtString d.Int)
  | some .cvtDirect => d
  | none => d

/-- The handler `func(a, b int) int { return a + b }`. -/
def handlerAdd : Handler where
  In := [.int, .int]
  Out := [.int]
  Variadic := false
  Body := fun args =>
    match args with
    | [a, b] => [.mk .int (.int (wrapI64 (a.Int + b.Int)))]
    | _ => []

/-- The struct type `struct { A int; X string "json:\"x\"" }`. -/
def tyAX : GoType :=
  .struct [⟨"A", "", false, true, .int⟩, ⟨"X", "x", false, true, .string⟩]

/-- The struct type `inner` of `type inner struct { A int "json:\"a\""; B int "json:\"b\"" }`. -/
def tyInner : GoType :=
  .struct [⟨"A", "a", false, true, .int⟩, ⟨"B", "b", false, true, .int⟩]

/-- The struct type `struct { inner }`: the embedded field is named after its type, and
is not exported. -/
def tyOuterHidden : GoType := .struct [⟨"inner", "", true, false, tyInner⟩]

/-- The struct type `struct { Inner }`, with `type Inner inner`: the embedded field is
exported. -/
def tyOuter : GoType := .struct [⟨"Inner", "", true, true, tyInner⟩]

/-- The map `map[string]interface{}{"a": 1, "b": 2}`. -/
def mapAB : Value :=
  .mk (.map .iface) (.map [("a", .iface .int (.int 1)), ("b", .iface .int (.int 2))])

/-- The struct type `struct { x int; X int "json:\"x\"" }`: the field `x` is not exported,
and the exported field `X` is looked up under the key `x`. -/
def tyShadow : GoType :=
  .struct [⟨"x", "", false, false, .int⟩, ⟨"X", "x", false, true, .int⟩]

/-- The struct type `struct { x int; A int }`, the field `x` not exported. -/
def tyHidden : GoType :=
  .struct [⟨"x", "", false, false, .int⟩, ⟨"A", "", false, true, .int⟩]

/-- The struct type `struct { Extra }`, with `type Extra map[string]interface{}`: the
embedded field is a map. -/
def tyExtra : GoType := .struct [⟨"Extra", "", true, true, .map .iface⟩]

/-- The variadic handler `func(xs ...int64) int64 { return int64(len(xs)) }`. -/
def handlerLen : Handler where
  In := [.slice .int64]
  Out := [.int64]
  Variadic := true
  Body := fun args =>
    match args with
    | [.mk _ (.slice xs)] => [.mk .int64 (.int xs.length)]
    | _ => []

/-- The variadic handler `func(args ...interface{}) int { return len(args) }`. -/
def handlerCount : Handler where
  In := [.slice .iface]
  Out := [.int]
  Variadic := true
  Body := fun args =>
    match args with
    | [.mk _ (.slice xs)] => [.mk .int (.int xs.length)]
    | _ => []

/-- The handler `func(name string) string { return "hello " + name }`. -/
def handlerGreet : Handler where
  In := [.string]
  Out := [.string]
  Variadic := false
  Body := fun args =>
    match args with
    | [.mk _ (.str name)] => [.mk .string (.str ("hello " ++ name))]
    | _ => []

/-! ## Vocabulary of the statements -/

/-- Lines 161 to 172 of `convert`: `elm := ret.Elem()` and the `switch elm.Kind()`, for
the type `t` the loop over the pointers ended with. -/
def dispatch (v : Value) (t : GoType) : Value × Option Err :=
  let elm := (New t).Elem
  match elm.Kind with
  | .Struct => convert2struct v elm t
  | .Map => convert2map v elm t
  | .Slice => convert2slice v elm t
  | k => (elm, some (.UnsupportedElementType k))

/-- The value `convert` returns from its last lines (174 to 183), for the final `deref`
and the `elm` the conversion left in the innermost box. -/
def rewrap (deref : Nat) (elm : Value) : Value :=
  if deref = 0 then elm.Addr.Elem else addrLoop (deref - 1) elm.Addr

/-- Lines 90 to 117 of `convert2struct`: the value to set a settable field to, and the
error, for the source `v` and the field `ft`. -/
def fieldStep (v : Value) (ft : Field) : Value × Option Err :=
  if ft.Anonymous then convert v ft.Typ
  else
    let mv := v.MapIndex (lookupKey ft)
    if !mv.IsValid then (.invalid, some (.InvalidMapKey ft))
    else convert mv ft.Typ

/-- The type `t` under `n` pointers. -/
def GoType.ptrN : Nat → GoType → GoType
  | 0, t => t
  | n + 1, t => .ptr (GoType.ptrN n t)

/-- The data `d` in `n` boxes, one in the next. -/
def Data.ptrN : Nat → Data → Data
  | 0, d => d
  | n + 1, d => .ptr (Data.ptrN n d)

/-- The scalar types of the fragment. -/
def GoType.isScalar : GoType → Bool
  | .bool | .int | .int64 | .uint | .string => true
  | _ => false

mutual
/-- Typing of data: `d.hasType t` says that `d` is the data of a Go value of type `t`
(integers in the range of their kind, an interface holding a value of a type that is not
an interface, every element, entry and field of its type). -/
def Data.hasType : Data → GoType → Bool
  | .bool _, .bool => true
  | .int n, .int => decide (-2 ^ 63 ≤ n ∧ n < 2 ^ 63)
  | .int n, .int64 => decide (-2 ^ 63 ≤ n ∧ n < 2 ^ 63)
  | .int n, .uint => decide (0 ≤ n ∧ n < 2 ^ 64)
  | .str _, .string => true
  | .nilIface, .iface => true
  | .iface t d, .iface => t.Kind != .Interface && d.hasType t
  | .nilPtr, .ptr _ => true
  | .ptr d, .ptr e => d.hasType e
  | .slice xs, .slice e => allHaveType xs e
  | .map kvs, .map e => entriesHaveType kvs e
  | .struct ds, .struct fs => fieldsHaveType ds fs
  | .ref _, .func _ => true
  | .ref _, .chan _ => true
  | _, _ => false
/-- Typing of the elements of a slice. -/
def allHaveType : List Data → GoType → Bool
  | [], _ => true
  | d :: ds, e => d.hasType e && allHaveType ds e
/-- Typing of the entries of a map. -/
def entriesHaveType : List (String × Data) → GoType → Bool
  | [], _ => true
  | (_, d) :: kvs, e => d.hasType e && entriesHaveType kvs e
/-- Typing of the fields of a struct. -/
def fieldsHaveType : List Data → List Field → Bool
  | [], [] => true
  | d :: ds, f :: fs => d.hasType f.Typ && fieldsHaveType ds fs
  | _, _ => false
end

mutual
/-- The key `k` is not used by the conversion of a map against the type `t` of a settable
embedded field: `t` is a struct type, or a pointer to one at any depth, none of whose
fields uses `k`. -/
def recordIgnores (k : String) : GoType → Bool
  | .struct fs => fieldsIgnore k fs
  | .ptr e => recordIgnores k e
  | _ => false
/-- The key `k` is not used by the fields `fs` of a record: it is not the lookup key of a
settable named field, and every settable embedded field is a record, or a pointer to a
record, that does not use `k` either. A field that cannot be set uses no key. -/
def fieldsIgnore (k : String) : List Field → Bool
  | [] => true
  | f :: rest =>
    (!f.Exported || (if f.Anonymous then recordIgnores k f.Typ else lookupKey f != k))
      && fieldsIgnore k rest
end

/-- The results of `from` on the arguments, each against the parameter type of its
position. -/
def fromAll (ins : List GoType) (param : List Iface) : List (Value × Option Err) :=
  List.zipWith (fun t p => from_ p t) ins param

/-- The first comma-separated segment of `t`: the first of the lists the characters of
`t` split into at the commas. -/
def specFirstSegment (t : String) : String :=
  String.mk ((t.data.splitOn (Char.ofNat 44)).headD [])

/-- The lookup key of a named field as the specification words it, for the field name `n`
and the json tag `t`: `n` when `t` is empty; otherwise the first comma-separated segment
`s` of `t` trimmed of double quotes at both ends, except that the key is `n` when `s` is
empty or `-`. -/
def specLookupKey (n t : String) : String :=
  if t = "" then n
  else
    let s := specFirstSegment (trimQuotes t)
    if s = "" ∨ s = "-" then n else s

mutual
/-- The size of a type descriptor: the number of its nodes, a field of a struct type
counting for one node above the type of the field. -/
def GoType.size : GoType → Nat
  | .ptr e => e.size + 1
  | .slice e => e.size + 1
  | .map e => e.size + 1
  | .chan e => e.size + 1
  | .struct fs => fieldsSize fs + 1
  | _ => 1
/-- The size of the fields of a struct type. -/
def fieldsSize : List Field → Nat
  | [] => 0
  | f :: rest => f.Typ.size + fieldsSize rest + 1
end

/-- The loop of `convert2slice` (lines 42 to 50), the calls of `convert` in it being calls
of `call`. -/
def convert2sliceLoopWith (call : Value → GoType → Value × Option Err) (et : GoType) :
    List Value → Value → Value × Option Err
  | [], r => (r, none)
  | x :: rest, r =>
    match call x et with
    | (_, some err_) => (r, some err_)
    | (converted, none) => convert2sliceLoopWith call et rest (Append r converted)

/-- Method `convert2slice`, the calls of `convert` in it being calls of `call`. -/
def convert2sliceWith (call : Value → GoType → Value × Option Err) (v r : Value)
    (rt : GoType) : Value × Option Err :=
  if v.Kind ≠ .Slice then (r, some (.OnlySliceToSlice v.Kind))
  else
    match rt with
    | .slice et => convert2sliceLoopWith call et v.elems (r.Set (MakeSlice rt 0 v.Len))
    | _ => (r, none)

/-- The loop of `convert2map` (lines 65 to 74), the calls of `convert` in it being calls of
`call`. -/
def convert2mapLoopWith (call : Value → GoType → Value × Option Err) (v : Value)
    (et : GoType) : List String → Value → Value × Option Err
  | [], r => (r, none)
  | k :: rest, r =>
    match call (v.MapIndex k) et with
    | (_, some err_) => (r, some err_)
    | (converted, none) => convert2mapLoopWith call v et rest (r.SetMapIndex k converted)

/-- Method `convert2map`, the calls of `convert` in it being calls of `call`. -/
def convert2mapWith (call : Value → GoType → Value × Option Err) (v r : Value)
    (rt : GoType) : Value × Option Err :=
  if v.Kind ≠ .Map then (r, some (.OnlyMapToMap v.Kind))
  else
    match rt with
    | .map et => convert2mapLoopWith call v et v.MapKeys (r.Set (MakeMap rt))
    | _ => (r, none)

/-- The loop of `convert2struct` (lines 84 to 124), the calls of `convert` in it being
calls of `call`. -/
def convert2structLoopWith (call : Value → GoType → Value × Option Err) (v : Value) :
    List Field → Nat → Value → Value × Option Err
  | [], _, r => (r, none)
  | ft :: rest, i, r =>
    if !ft.Exported then convert2structLoopWith call v rest (i + 1) r
    else
      let res : Value × Option Err :=
        if ft.Anonymous then call v ft.Typ
        else
          let mv := v.MapIndex (lookupKey ft)
          if !mv.IsValid then (.invalid, some (.InvalidMapKey ft))
          else call mv ft.Typ
      match res with
      | (_, some err) => (r, some err)
      | (converted, none) =>
        convert2structLoopWith call v rest (i + 1) (r.SetField i converted)

/-- Method `convert2struct`, the calls of `convert` in it being calls of `call`. -/
def convert2structWith (call : Value → GoType → Value × Option Err) (v r : Value)
    (rt : GoType) : Value × Option Err :=
  if v.Kind ≠ .Map then (r, some (.OnlyMapToStruct v.Kind))
  else
    match rt with
    | .struct fields => convert2structLoopWith call v fields 0 r
    | _ => (r, none)

/-- The body of method `convert`: what one call of `convert` does, the calls of `convert`
below it (in `convert2struct`, `convert2map` and `convert2slice`) being calls of `call`. -/
def convertWith (call : Value → GoType → Value × Option Err) (v : Value) (t : GoType) :
    Value × Option Err :=
  match convertHead v t with
  | .inl res => res
  | .inr v =>
    match derefLoop t 0 with
    | (deref, t') =>
      let ret := New t'
      let elm := ret.Elem
      let res :=
        match elm.Kind with
        | .Struct => convert2structWith call v elm t'
        | .Map => convert2mapWith call v elm t'
        | .Slice => convert2sliceWith call v elm t'
        | k => (elm, some (.UnsupportedElementType k))
      let ret := res.1.Addr
      if deref = 0 then (ret.Elem, res.2) else (addrLoop (deref - 1) ret, res.2)

/-- The body of `convert` nested `n` times, the calls at the bottom being calls of
`bottom`: a run of `convert` that may go `n` calls deep. -/
def convertIter (bottom : Value → GoType → Value × Option Err) :
    Nat → Value → GoType → Value × Option Err
  | 0 => bottom
  | n + 1 => convertWith (convertIter bottom n)

/-- The type `type T struct { *T }` unfolded `n` times: `struct { *T }` with, for the type
of the embedded field, the pointer to the unfolding of `n - 1` times, and the empty struct
after the last unfolding. The Go type is what all of its unfoldings begin with. -/
def selfEmbed : Nat → GoType
  | 0 => .struct []
  | n + 1 => .struct [⟨"T", "", true, true, .ptr (selfEmbed n)⟩]

/-! ## The unfolding of `convert` -/

theorem derefLoop_ptrN : ∀ (t : GoType) (n : Nat),
    t = GoType.ptrN ((derefLoop t n).1 - n) (derefLoop t n).2 ∧ n ≤ (derefLoop t n).1
      ∧ (derefLoop t n).2.Kind ≠ .Ptr
  | .ptr e, n => by
    obtain ⟨h1, h2, h3⟩ := derefLoop_ptrN e (n + 1)
    simp only [derefLoop]
    refine ⟨?_, by omega, h3⟩
    have : (derefLoop e (n + 1)).1 - n = ((derefLoop e (n + 1)).1 - (n + 1)) + 1 := by omega
    rw [this, GoType.ptrN, ← h1]
  | .bool, _ | .int, _ | .int64, _ | .uint, _ | .string, _ | .iface, _ | .slice _, _
  | .map _, _ | .struct _, _ | .func _, _ | .chan _, _ => by
    simp [derefLoop, GoType.ptrN, GoType.Kind]

theorem ptrN_succ (n : Nat) (t : GoType) :
    GoType.ptrN (n + 1) t = GoType.ptrN n (.ptr t) := by
  induction n with
  | zero => rfl
  | succ n ih => rw [GoType.ptrN, ih]; rfl

theorem dataPtrN_succ (n : Nat) (d : Data) : Data.ptrN (n + 1) d = Data.ptrN n (.ptr d) := by
  induction n with
  | zero => rfl
  | succ n ih => rw [Data.ptrN, ih]; rfl

theorem addrLoop_mk (n : Nat) (t : GoType) (d : Data) :
    addrLoop n (.mk t d) = .mk (GoType.ptrN n t) (Data.ptrN n d) := by
  induction n generalizing t d with
  | zero => rfl
  | succ n ih => rw [addrLoop, Value.Addr, ih, ← ptrN_succ, ← dataPtrN_succ]

theorem rewrap_mk (k : Nat) (t : GoType) (d : Data) :
    rewrap k (.mk t d) = .mk (GoType.ptrN k t) (Data.ptrN k d) := by
  cases k with
  | zero => rfl
  | succ k =>
    simp only [rewrap, Nat.succ_ne_zero, if_false, Nat.add_sub_cancel, Value.Addr, addrLoop_mk,
      ← ptrN_succ, ← dataPtrN_succ]

theorem convert_of_head_inl {v : Value} {t : GoType} {res : Value × Option Err}
    (h : convertHead v t = .inl res) : convert v t = res := by
  rw [convert, h]

theorem convert_of_head_inr {v v' : Value} {t : GoType} (h : convertHead v t = .inr v') :
    convert v t =
      (rewrap (derefLoop t 0).1 (dispatch v' (derefLoop t 0).2).1,
        (dispatch v' (derefLoop t 0).2).2) := by
  rw [convert, h]
  simp only [dispatch, rewrap]
  split <;> rfl

/-! ## The value `convert` returns has the target type -/

theorem Convert_typ {vt t : GoType} (x : Data) (h : vt.ConvertibleTo t = true) :
    ∃ d, (Value.mk vt x).Convert t = .mk t d := by
  unfold GoType.ConvertibleTo at h
  cases hop : convertOp t vt with
  | none => rw [hop] at h; simp at h
  | some op =>
    cases op <;> simp only [Value.Convert, hop, makeInt]
    · split <;> exact ⟨_, rfl⟩
    · split <;> exact ⟨_, rfl⟩
    · exact ⟨_, rfl⟩
    · exact ⟨_, rfl⟩
    · exact ⟨_, rfl⟩
    · exact ⟨_, rfl⟩
    · split
      · exact ⟨_, rfl⟩
      · exact ⟨_, rfl⟩

theorem convertHead_inl_typ {v : Value} {t : GoType} {res : Value × Option Err}
    (h : convertHead v t = .inl res) : ∃ d, res.1 = .mk t d := by
  unfold convertHead at h
  split at h
  · simp at h
  · rename_i vt x
    split at h
    · split at h
      · simp only [Sum.inl.injEq] at h
        subst h
        exact ⟨_, rfl⟩
      · rename_i vt' d' _
        split at h
        · rename_i hc
          simp only [Sum.inl.injEq] at h
          subst h
          exact Convert_typ d' hc
        · simp at h
    · split at h
      · rename_i hc
        simp only [Sum.inl.injEq] at h
        subst h
        exact Convert_typ x hc
      · simp at h

theorem Append_typ (t : GoType) (d0 : Data) (c : Value) : ∃ d, Append (.mk t d0) c = .mk t d := by
  cases d0 <;> cases c <;> exact ⟨_, rfl⟩

theorem SetMapIndex_typ (t : GoType) (d0 : Data) (k : String) (c : Value) :
    ∃ d, (Value.mk t d0).SetMapIndex k c = .mk t d := by
  cases d0 <;> cases c <;> exact ⟨_, rfl⟩

theorem SetField_typ (t : GoType) (d0 : Data) (i : Nat) (c : Value) :
    ∃ d, (Value.mk t d0).SetField i c = .mk t d := by
  cases d0 <;> cases c <;> exact ⟨_, rfl⟩

theorem Set_typ (t : GoType) (d0 : Data) (x : Value) : ∃ d, (Value.mk t d0).Set x = .mk t d := by
  cases d0 <;> cases x <;> exact ⟨_, rfl⟩

theorem convert2sliceLoop_typ (et : GoType) (xs : List Value) :
    ∀ (t : GoType) (d0 : Data), ∃ d, (convert2sliceLoop et xs (.mk t d0)).1 = .mk t d := by
  induction xs with
  | nil => intro t d0; exact ⟨d0, by rw [convert2sliceLoop]⟩
  | cons x rest ih =>
    intro t d0
    rw [convert2sliceLoop]
    rcases hc : convert x et with ⟨c, _ | e⟩
    · obtain ⟨d, hd⟩ := Append_typ t d0 c
      simp only [hd]
      exact ih t d
    · exact ⟨d0, rfl⟩

theorem convert2mapLoop_typ (v : Value) (et : GoType) (keys : List String) :
    ∀ (t : GoType) (d0 : Data), ∃ d, (convert2mapLoop v et keys (.mk t d0)).1 = .mk t d := by
  induction keys with
  | nil => intro t d0; exact ⟨d0, by rw [convert2mapLoop]⟩
  | cons k rest ih =>
    intro t d0
    rw [convert2mapLoop]
    rcases hc : convert (v.MapIndex k) et with ⟨c, _ | e⟩
    · obtain ⟨d, hd⟩ := SetMapIndex_typ t d0 k c
      simp only [hd]
      exact ih t d
    · exact ⟨d0, rfl⟩

theorem convert2structLoop_eq (v : Value) (ft : Field) (rest : List Field) (i : Nat)
    (r : Value) :
    convert2structLoop v (ft :: rest) i r =
      if ft.Exported = false then convert2structLoop v rest (i + 1) r
      else
        match fieldStep v ft with
        | (_, some err) => (r, some err)
        | (converted, none) => convert2structLoop v rest (i + 1) (r.SetField i converted) := by
  rw [convert2structLoop]
  cases ft.Exported <;> simp [fieldStep]

theorem convert2structLoop_typ (v : Value) (fs : List Field) :
    ∀ (i : Nat) (t : GoType) (d0 : Data),
      ∃ d, (convert2structLoop v fs i (.mk t d0)).1 = .mk t d := by
  induction fs with
  | nil => intro i t d0; exact ⟨d0, by rw [convert2structLoop]⟩
  | cons ft rest ih =>
    intro i t d0
    rw [convert2structLoop_eq]
    split
    · exact ih _ t d0
    · rcases hc : fieldStep v ft with ⟨c, _ | e⟩
      · obtain ⟨d, hd⟩ := SetField_typ t d0 i c
        simp only [hd]
        exact ih _ t d
      · exact ⟨d0, rfl⟩

theorem convert2slice_typ (v : Value) (t : GoType) (d0 : Data) (rt : GoType) :
    ∃ d, (convert2slice v (.mk t d0) rt).1 = .mk t d := by
  rw [convert2slice.eq_def]
  split
  · exact ⟨d0, rfl⟩
  · split
    · rename_i et
      obtain ⟨d, hd⟩ := Set_typ t d0 (MakeSlice (.slice et) 0 v.Len)
      rw [hd]
      exact convert2sliceLoop_typ _ _ t d
    · exact ⟨d0, rfl⟩

theorem convert2map_typ (v : Value) (t : GoType) (d0 : Data) (rt : GoType) :
    ∃ d, (convert2map v (.mk t d0) rt).1 = .mk t d := by
  rw [convert2map.eq_def]
  split
  · exact ⟨d0, rfl⟩
  · split
    · rename_i et
      obtain ⟨d, hd⟩ := Set_typ t d0 (MakeMap (.map et))
      rw [hd]
      exact convert2mapLoop_typ _ _ _ t d
    · exact ⟨d0, rfl⟩

theorem convert2struct_typ (v : Value) (t : GoType) (d0 : Data) (rt : GoType) :
    ∃ d, (convert2struct v (.mk t d0) rt).1 = .mk t d := by
  rw [convert2struct.eq_def]
  split
  · exact ⟨d0, rfl⟩
  · split
    · exact convert2structLoop_typ _ _ _ t d0
    · exact ⟨d0, rfl⟩

theorem dispatch_typ (v : Value) (t : GoType) : ∃ d, (dispatch v t).1 = .mk t d := by
  simp only [dispatch, New, Value.Elem]
  split
  · exact convert2struct_typ _ _ _ _
  · exact convert2map_typ _ _ _ _
  · exact convert2slice_typ _ _ _ _
  · exact ⟨_, rfl⟩

/-- The value `convert` returns, with or without an error, is of the target type. -/
theorem convert_typ (v : Value) (t : GoType) : ∃ d, (convert v t).1 = .mk t d := by
  cases hh : convertHead v t with
  | inl res => rw [convert_of_head_inl hh]; exact convertHead_inl_typ hh
  | inr v' =>
    rw [convert_of_head_inr hh]
    obtain ⟨d, hd⟩ := dispatch_typ v' (derefLoop t 0).2
    obtain ⟨h1, _, _⟩ := derefLoop_ptrN t 0
    simp only [hd, rewrap_mk]
    exact ⟨_, by rw [Nat.sub_zero] at h1; rw [← h1]⟩

theorem convert_mk_data (v : Value) (t : GoType) : (convert v t).1 = .mk t (convert v t).1.data := by
  obtain ⟨d, hd⟩ := convert_typ v t
  rw [hd]
  rfl

/-! ## Scalars -/

theorem wrapI64_wrapU64 (n : Int) (h : -2 ^ 63 ≤ n ∧ n < 2 ^ 63) : wrapI64 (wrapU64 n) = n := by
  unfold wrapI64 wrapU64
  norm_num at h ⊢
  omega

theorem wrapU64_of_range (n : Int) (h : 0 ≤ n ∧ n < 2 ^ 64) : wrapU64 n = n := by
  unfold wrapU64
  norm_num at h ⊢
  omega

/-- A well-typed scalar converts to its own type as itself. -/
theorem convert_scalar_self (K : GoType) (d : Data) (hK : K.isScalar = true)
    (hd : d.hasType K = true) : convert (.mk K d) K = (.mk K d, none) := by
  apply convert_of_head_inl
  cases K <;> simp [GoType.isScalar] at hK <;> cases d <;> simp [Data.hasType] at hd
  · rfl
  · simp [convertHead, GoType.Kind, GoType.ConvertibleTo, convertOp, kindOp, Value.Convert,
      makeInt, Value.Int, wrapI64_wrapU64 _ hd]
  · simp [convertHead, GoType.Kind, GoType.ConvertibleTo, convertOp, kindOp, Value.Convert,
      makeInt, Value.Int, wrapI64_wrapU64 _ hd]
  · simp [convertHead, GoType.Kind, GoType.ConvertibleTo, convertOp, kindOp, Value.Convert,
      makeInt, Value.Int, wrapU64_of_range _ hd]
  · rfl

/-! ## `Invoke` -/

theorem convertArgs_ok (ins : List GoType) :
    ∀ (param : List Iface), param.length = ins.length →
      (∀ r ∈ fromAll ins param, r.2 = none) →
      convertArgs ins param = (ins.length, .inr ((fromAll ins param).map Prod.fst)) := by
  induction ins with
  | nil => intro param _ _; rfl
  | cons t ts ih =>
    intro param hlen hall
    cases param with
    | nil => simp at hlen
    | cons p ps =>
      simp only [fromAll, List.zipWith_cons_cons, List.mem_cons, forall_eq_or_imp] at hall
      have hts := ih ps (by simpa using hlen) hall.2
      rcases hp : from_ p t with ⟨x, e⟩
      rw [hp] at hall
      have he : e = none := hall.1
      subst he
      simp only [convertArgs, hp, hts, fromAll, List.zipWith_cons_cons, List.map_cons,
        List.length_cons]

theorem convertArgs_fail (ins : List GoType) :
    ∀ (param : List Iface) (i : Nat) (x : Value) (e : Err),
      (fromAll ins param)[i]? = some (x, some e) →
      (∀ j : Nat, j < i → ∀ r : Value × Option Err, (fromAll ins param)[j]? = some r → r.2 = none) →
      convertArgs ins param = (i + 1, .inl e) := by
  induction ins with
  | nil => intro param i x e h _; simp [fromAll] at h
  | cons t ts ih =>
    intro param i x e h hprev
    cases param with
    | nil => simp [fromAll] at h
    | cons p ps =>
      simp only [fromAll, List.zipWith_cons_cons] at h hprev
      cases i with
      | zero =>
        simp only [List.getElem?_cons_zero, Option.some.injEq] at h
        simp only [convertArgs, h]
      | succ i =>
        simp only [List.getElem?_cons_succ] at h
        have h0 := hprev 0 (Nat.succ_pos i) (from_ p t) (List.getElem?_cons_zero ..)
        have hrest := ih ps i x e h (fun j hj r hr => hprev (j + 1) (Nat.succ_lt_succ hj) r
          ((List.getElem?_cons_succ ..).trans hr))
        rcases hp : from_ p t with ⟨y, e0⟩
        rw [hp] at h0
        have he : e0 = none := h0
        subst he
        simp only [convertArgs, hp, hrest]

theorem collectOut_length (ret : List Value) (n : Nat) : (collectOut ret n).length = n := by
  simp [collectOut]

theorem collectOut_get (ret : List Value) (n i : Nat) (h : i < n) :
    (collectOut ret n)[i]? = some ((ret.getD i .invalid).Interface) := by
  simp [collectOut, List.getElem?_map, List.getElem?_range h]

theorem Invoke_of_mismatch (f : Handler) (param : List Iface) (h : param.length ≠ f.In.length) :
    Invoke f param =
      { out := none, err := some (.ParameterCountMismatch param.length f.In.length),
        calls := [], converted := 0 } := by
  simp [Invoke, Handler.NumIn, h]

theorem Invoke_of_fail (f : Handler) (param : List Iface) (hlen : param.length = f.In.length)
    (i : Nat) (x : Value) (e : Err) (h : (fromAll f.In param)[i]? = some (x, some e))
    (hprev : ∀ j : Nat, j < i → ∀ r, (fromAll f.In param)[j]? = some r → r.2 = none) :
    Invoke f param = { out := none, err := some e, calls := [], converted := i + 1 } := by
  simp [Invoke, Handler.NumIn, hlen, convertArgs_fail f.In param i x e h hprev]

mutual
theorem same_refl : ∀ t : GoType, t.same t = true
  | .bool | .int | .int64 | .uint | .string | .iface => by simp [GoType.same]
  | .func _ => by simp [GoType.same]
  | .ptr e | .slice e | .map e | .chan e => by simp [GoType.same, same_refl e]
  | .struct fs => by simp [GoType.same, sameFields_refl fs]
theorem sameFields_refl : ∀ fs : List Field, sameFields fs fs = true
  | [] => by simp [sameFields]
  | f :: rest => by simp [sameFields, same_refl f.Typ, sameFields_refl rest]
end

theorem assignableTo_self (t : GoType) (d : Data) : (Value.mk t d).assignableTo t = true := by
  simp [Value.assignableTo, GoType.AssignableTo, same_refl]

theorem assignTo_self (t : GoType) (d : Data) : (Value.mk t d).assignTo t = .mk t d := by
  simp only [Value.assignTo]
  split
  · rename_i h; exact absurd h.1 h.2
  · rfl

/-- Arguments that have the types of the parameters pass the tests of `Call` and are the
values of the parameters as they are. -/
theorem zipWith_assign_typed : ∀ (xs : List Value) (ins : List GoType),
    List.Forall₂ (fun x t => ∃ d, x = Value.mk t d) xs ins →
      (List.zipWith Value.assignableTo xs ins).all id = true
        ∧ List.zipWith Value.assignTo xs ins = xs
  | [], [], _ => by simp
  | x :: xs, t :: ins, h => by
    rw [List.forall₂_cons] at h
    obtain ⟨⟨d, rfl⟩, hrest⟩ := h
    obtain ⟨h1, h2⟩ := zipWith_assign_typed xs ins hrest
    simp only [List.zipWith_cons_cons, List.all_cons, assignableTo_self, assignTo_self, h2,
      id_eq, Bool.true_and]
    exact ⟨h1, trivial⟩
  | [], _ :: _, h => by cases h
  | _ :: _, [], h => by cases h

/-- The values `from` returns have the types of the parameters. -/
theorem fromAll_typed : ∀ (ins : List GoType) (param : List Iface), param.length = ins.length →
    List.Forall₂ (fun x t => ∃ d, x = Value.mk t d) ((fromAll ins param).map Prod.fst) ins
  | [], [], _ => by simp [fromAll]
  | t :: ins, p :: param, h => by
    have hrest := fromAll_typed ins param (by simpa using h)
    simp only [fromAll, List.zipWith_cons_cons, List.map_cons]
    refine List.Forall₂.cons ?_ hrest
    cases p with
    | nil => exact ⟨_, rfl⟩
    | dyn vt d => exact ⟨_, convert_mk_data _ _⟩
  | [], _ :: _, h => by simp at h
  | _ :: _, [], h => by simp at h

theorem callArgs_of_typed (f : Handler) (hv : f.Variadic = false) (xs : List Value)
    (h : List.Forall₂ (fun x t => ∃ d, x = Value.mk t d) xs f.In) :
    f.callArgs xs = some xs := by
  obtain ⟨h1, h2⟩ := zipWith_assign_typed xs f.In h
  simp [Handler.callArgs, hv, h.length_eq, h1, h2]

theorem Invoke_of_ok (f : Handler) (hv : f.Variadic = false) (param : List Iface)
    (hlen : param.length = f.In.length) (hall : ∀ r ∈ fromAll f.In param, r.2 = none) :
    Invoke f param =
      { out := some (collectOut (f.Body ((fromAll f.In param).map Prod.fst)) f.Out.length),
        err := none, calls := [(fromAll f.In param).map Prod.fst],
        converted := f.In.length } := by
  simp [Invoke, Handler.NumIn, Handler.NumOut, hlen, convertArgs_ok f.In param hlen hall,
    Handler.Call, callArgs_of_typed f hv _ (fromAll_typed f.In param hlen)]

theorem from_dyn (t : GoType) (d : Data) (T : GoType) :
    from_ (.dyn t d) T = convert (.mk t d) T := rfl

theorem convert_nilIface (t : GoType) :
    convert (.mk .iface .nilIface) t
      = (Zero t, if t.Kind ≠ .Ptr then some .NilForNonPtr else none) :=
  convert_of_head_inl rfl

/-! ## The two ways through the head of `convert` -/

theorem convert_direct (vt : GoType) (d : Data) (t : GoType) (hk : vt.Kind ≠ .Interface)
    (h : vt.ConvertibleTo t = true) :
    convert (.mk vt d) t = ((Value.mk vt d).Convert t, none) := by
  apply convert_of_head_inl
  simp only [convertHead, hk, if_false, h, if_true]

theorem convert_iface_direct (vt : GoType) (d : Data) (t : GoType)
    (h : vt.ConvertibleTo t = true) :
    convert (.mk .iface (.iface vt d)) t = ((Value.mk vt d).Convert t, none) := by
  apply convert_of_head_inl
  simp only [convertHead, GoType.Kind, Value.Interface, if_true, h]

theorem convert_tail (vt : GoType) (d : Data) (t : GoType) (hk : vt.Kind ≠ .Interface)
    (h : vt.ConvertibleTo t = false) :
    convert (.mk vt d) t =
      (rewrap (derefLoop t 0).1 (dispatch (.mk vt d) (derefLoop t 0).2).1,
        (dispatch (.mk vt d) (derefLoop t 0).2).2) := by
  apply convert_of_head_inr
  simp [convertHead, hk, h]

theorem convert_iface_tail (vt : GoType) (d : Data) (t : GoType)
    (h : vt.ConvertibleTo t = false) :
    convert (.mk .iface (.iface vt d)) t =
      (rewrap (derefLoop t 0).1 (dispatch (.mk vt d) (derefLoop t 0).2).1,
        (dispatch (.mk vt d) (derefLoop t 0).2).2) := by
  apply convert_of_head_inr
  simp [convertHead, GoType.Kind, Value.Interface, h]

theorem rewrap_zero (x : Value) : rewrap 0 x = x := by
  cases x <;> rfl

theorem kindOp_of_not_int (src dst : Kind) (h1 : src ≠ .Int) (h2 : src ≠ .Int64)
    (h3 : src ≠ .Uint) : kindOp src dst = none := by
  cases src <;> simp_all [kindOp]

theorem kindOp_to_other (src dst : Kind) (h1 : dst ≠ .Int) (h2 : dst ≠ .Int64)
    (h3 : dst ≠ .Uint) (h4 : dst ≠ .String) : kindOp src dst = none := by
  cases src <;> cases dst <;> simp_all [kindOp]

theorem haveIdentical_kind : ∀ (T A : GoType), haveIdenticalUnderlyingType T A = true →
    T.Kind = A.Kind := by
  intro T A h
  cases T <;> cases A <;> simp_all [haveIdenticalUnderlyingType, GoType.Kind]

/-! ## Sequences -/

theorem convertible_slice_slice (A T : GoType) :
    (GoType.slice A).ConvertibleTo (.slice T) = haveIdenticalUnderlyingType T A := by
  simp only [GoType.ConvertibleTo, convertOp, GoType.Kind, kindOp, haveIdenticalUnderlyingType,
    implements]
  cases haveIdenticalUnderlyingType T A <;> simp

theorem Convert_slice_slice (A T : GoType) (xs : List Data)
    (h : haveIdenticalUnderlyingType T A = true) :
    (Value.mk (.slice A) (.slice xs)).Convert (.slice T) = .mk (.slice T) (.slice xs) := by
  simp only [Value.Convert, convertOp, GoType.Kind, kindOp, haveIdenticalUnderlyingType, h,
    if_true]

theorem convert2sliceLoop_ok (et : GoType) (xs : List Value) :
    ∀ (t : GoType) (acc : List Data), (∀ x ∈ xs, (convert x et).2 = none) →
      convert2sliceLoop et xs (.mk t (.slice acc))
        = (.mk t (.slice (acc ++ xs.map (fun x => (convert x et).1.data))), none) := by
  induction xs with
  | nil => intro t acc _; rw [convert2sliceLoop]; simp
  | cons x rest ih =>
    intro t acc h
    have hx := h x (List.mem_cons_self _ _)
    have hrest := ih t (acc ++ [(convert x et).1.data])
      (fun y hy => h y (List.mem_cons_of_mem _ hy))
    rw [convert2sliceLoop]
    rcases hc : convert x et with ⟨c, e⟩
    rw [hc] at hx hrest
    have he : e = none := hx
    subst he
    obtain ⟨d, hd⟩ := convert_typ x et
    rw [hc] at hd
    have hcd : c = .mk et d := hd
    subst hcd
    simp only [Append, Value.data, List.map_cons, hc] at hrest ⊢
    rw [hrest, List.append_assoc]
    rfl

theorem convert2sliceLoop_fail (et : GoType) (pre : List Value) (x : Value) (post : List Value)
    (e : Err) :
    ∀ (t : GoType) (acc : List Data), (∀ y ∈ pre, (convert y et).2 = none) →
      (convert x et).2 = some e →
      convert2sliceLoop et (pre ++ x :: post) (.mk t (.slice acc))
        = (.mk t (.slice (acc ++ pre.map (fun y => (convert y et).1.data))), some e) := by
  induction pre with
  | nil =>
    intro t acc _ hx
    rw [List.nil_append, convert2sliceLoop]
    rcases hc : convert x et with ⟨c, e'⟩
    rw [hc] at hx
    have he : e' = some e := hx
    subst he
    simp
  | cons y rest ih =>
    intro t acc h hx
    have hy := h y (List.mem_cons_self _ _)
    have hrest := ih t (acc ++ [(convert y et).1.data])
      (fun z hz => h z (List.mem_cons_of_mem _ hz)) hx
    rw [List.cons_append, convert2sliceLoop]
    rcases hc : convert y et with ⟨c, e'⟩
    rw [hc] at hy hrest
    have he : e' = none := hy
    subst he
    obtain ⟨d, hd⟩ := convert_typ y et
    rw [hc] at hd
    have hcd : c = .mk et d := hd
    subst hcd
    simp only [Append, Value.data, List.map_cons, hc] at hrest ⊢
    rw [hrest, List.append_assoc]
    rfl

/-- A slice that is not directly convertible to `[]T` goes through the loop of
`convert2slice`, started on the empty slice. -/
theorem convert_slice_tail (A T : GoType) (xs : List Data)
    (hnc : (GoType.slice A).ConvertibleTo (.slice T) = false) :
    convert (.mk (.slice A) (.slice xs)) (.slice T)
      = convert2sliceLoop T (xs.map (Value.mk A)) (.mk (.slice T) (.slice [])) := by
  rw [convert_tail _ _ _ (by simp [GoType.Kind]) hnc]
  have hd : dispatch (.mk (.slice A) (.slice xs)) (.slice T)
      = convert2sliceLoop T (xs.map (Value.mk A)) (.mk (.slice T) (.slice [])) := by
    simp only [dispatch, New, Value.Elem, Value.Kind, GoType.Kind]
    rw [convert2slice]
    simp [Value.Kind, GoType.Kind, Value.elems, Value.Set, MakeSlice]
  simp only [derefLoop, hd, rewrap_zero]

theorem Index_mk_slice (e : GoType) (xs : List Data) (i : Nat) (h : i < xs.length) :
    (Value.mk (.slice e) (.slice xs)).Index i = .mk e (xs[i]) := by
  simp [Value.Index, List.getElem?_eq_getElem h]

theorem convertOp_direct (A T : GoType) (hk : kindOp A.Kind T.Kind = none)
    (hid : haveIdenticalUnderlyingType T A = true) : convertOp T A = some .cvtDirect := by
  simp only [convertOp, hk, hid, if_true]

theorem convertOp_to_iface (A : GoType) (hk : A.Kind ≠ .Interface) :
    convertOp .iface A = some .cvtT2I := by
  have h1 : kindOp A.Kind .Interface = none :=
    kindOp_to_other _ _ (by decide) (by decide) (by decide) (by decide)
  have h2 : haveIdenticalUnderlyingType .iface A = false := by
    cases A <;> simp_all [haveIdenticalUnderlyingType, GoType.Kind]
  unfold convertOp implements
  rw [show GoType.iface.Kind = Kind.Interface from rfl, h1]
  simp [h2, hk]

/-- A value of an interface type holding a value of a type that is no interface passes
through an `interface{}` target as it is. -/
theorem convert_iface_iface (vt : GoType) (d : Data) (hk : vt.Kind ≠ .Interface) :
    convert (.mk .iface (.iface vt d)) .iface = (.mk .iface (.iface vt d), none) := by
  have hop := convertOp_to_iface vt hk
  rw [convert_iface_direct vt d .iface (by simp [GoType.ConvertibleTo, hop])]
  simp [Value.Convert, hop]

/-- Conversion between identical types: a well-typed value whose type and the target
have the same structure is returned with its data unchanged, unless it is the nil
interface (which is an error against `interface{}`). -/
theorem convert_of_identical (A T : GoType) (x : Data)
    (hid : haveIdenticalUnderlyingType T A = true) (hwt : x.hasType A = true)
    (hne : (convert (.mk A x) T).2 = none) : convert (.mk A x) T = (.mk T x, none) := by
  have hkind := haveIdentical_kind T A hid
  by_cases hs : A.isScalar = true
  · have hTA : T = A := by
      cases A <;> simp [GoType.isScalar] at hs <;> cases T <;>
        simp_all [haveIdenticalUnderlyingType]
    subst hTA
    exact convert_scalar_self T x hs hwt
  · by_cases hi : A.Kind = .Interface
    · have hA : A = .iface := by cases A <;> simp_all [GoType.Kind]
      have hT : T = .iface := by cases T <;> simp_all [GoType.Kind]
      subst hA hT
      cases x <;> simp [Data.hasType] at hwt
      · rw [convert_nilIface] at hne
        simp [GoType.Kind] at hne
      · exact convert_iface_iface _ _ hwt.1
    · have hk : kindOp A.Kind T.Kind = none := by
        apply kindOp_of_not_int <;> intro hk <;> cases A <;>
          simp_all [GoType.Kind, GoType.isScalar]
      have hop := convertOp_direct A T hk hid
      rw [convert_direct A x T hi (by simp [GoType.ConvertibleTo, hop])]
      simp [Value.Convert, hop]

theorem allHaveType_get (xs : List Data) (e : GoType) (h : allHaveType xs e = true) :
    ∀ (i : Nat) (hi : i < xs.length), (xs[i]).hasType e = true := by
  induction xs with
  | nil => intro i hi; simp at hi
  | cons x rest ih =>
    intro i hi
    simp only [allHaveType, Bool.and_eq_true] at h
    cases i with
    | zero => exact h.1
    | succ i => exact ih h.2 i (by simpa using hi)

/-! ## Mappings -/

theorem convertible_map_map (A V : GoType) :
    (GoType.map A).ConvertibleTo (.map V) = haveIdenticalUnderlyingType V A := by
  simp only [GoType.ConvertibleTo, convertOp, GoType.Kind, kindOp, haveIdenticalUnderlyingType,
    implements]
  cases haveIdenticalUnderlyingType V A <;> simp

theorem Convert_map_map (A V : GoType) (kvs : List (String × Data))
    (h : haveIdenticalUnderlyingType V A = true) :
    (Value.mk (.map A) (.map kvs)).Convert (.map V) = .mk (.map V) (.map kvs) := by
  simp only [Value.Convert, convertOp, GoType.Kind, kindOp, haveIdenticalUnderlyingType, h,
    if_true]

theorem lookup_setEntry (k : String) (d : Data) (kvs : List (String × Data)) (k' : String) :
    (setEntry k d kvs).lookup k' = if k' = k then some d else kvs.lookup k' := by
  induction kvs with
  | nil =>
    by_cases h : k' = k
    · simp [setEntry, List.lookup, h]
    · have hb : (k' == k) = false := by simpa using h
      simp [setEntry, List.lookup, h, hb]
  | cons kv rest ih =>
    rcases kv with ⟨k0, d0⟩
    by_cases h0 : k0 = k
    · subst h0
      by_cases h : k' = k0
      · simp [setEntry, List.lookup, h]
      · have hb : (k' == k0) = false := by simpa using h
        simp [setEntry, List.lookup, h, hb]
    · by_cases h : k' = k
      · subst h
        have hb : (k' == k0) = false := by simpa using fun hc : k' = k0 => h0 hc.symm
        simp [setEntry, List.lookup, h0, hb, ih]
      · by_cases h1 : k' = k0
        · simp [setEntry, List.lookup, h0, h1]
        · have hb : (k' == k0) = false := by simpa using h1
          simp [setEntry, List.lookup, h0, hb, h, ih]

theorem convert2mapLoop_err_iff (v : Value) (et : GoType) (keys : List String) :
    ∀ r : Value, (convert2mapLoop v et keys r).2 = none ↔
      ∀ k ∈ keys, (convert (v.MapIndex k) et).2 = none := by
  induction keys with
  | nil => intro r; rw [convert2mapLoop]; simp
  | cons k rest ih =>
    intro r
    rw [convert2mapLoop]
    rcases hc : convert (v.MapIndex k) et with ⟨c, _ | e⟩
    · simp only [ih, List.mem_cons, forall_eq_or_imp, hc, true_and]
    · simp [hc]

theorem convert2mapLoop_ok (v : Value) (et : GoType) (keys : List String) :
    ∀ (t : GoType) (acc : List (String × Data)),
      (∀ k ∈ keys, (convert (v.MapIndex k) et).2 = none) →
      ∃ kvs' : List (String × Data),
        convert2mapLoop v et keys (.mk t (.map acc)) = (.mk t (.map kvs'), none) ∧
        ∀ k' : String, kvs'.lookup k'
          = if k' ∈ keys then some (convert (v.MapIndex k') et).1.data else acc.lookup k' := by
  induction keys with
  | nil => intro t acc _; exact ⟨acc, by rw [convert2mapLoop], by simp⟩
  | cons k rest ih =>
    intro t acc h
    have hk := h k (List.mem_cons_self _ _)
    rw [convert2mapLoop]
    rcases hc : convert (v.MapIndex k) et with ⟨c, e⟩
    rw [hc] at hk
    have he : e = none := hk
    subst he
    obtain ⟨d, hd⟩ := convert_typ (v.MapIndex k) et
    rw [hc] at hd
    have hcd : c = .mk et d := hd
    subst hcd
    obtain ⟨kvs', h1, h2⟩ := ih t (setEntry k d acc)
      (fun k' hk' => h k' (List.mem_cons_of_mem _ hk'))
    refine ⟨kvs', by simpa [Value.SetMapIndex] using h1, ?_⟩
    intro k'
    rw [h2 k', lookup_setEntry]
    by_cases hm : k' ∈ rest
    · simp [hm]
    · by_cases hkk : k' = k
      · subst hkk
        simp [hm, hc, Value.data]
      · simp [hm, hkk]

/-- A map that is not directly convertible to `map[string]V` goes through the loop of
`convert2map`, started on the empty map. -/
theorem convert_map_tail (A V : GoType) (kvs : List (String × Data))
    (hnc : (GoType.map A).ConvertibleTo (.map V) = false) :
    convert (.mk (.map A) (.map kvs)) (.map V)
      = convert2mapLoop (.mk (.map A) (.map kvs)) V (kvs.map Prod.fst)
          (.mk (.map V) (.map [])) := by
  rw [convert_tail _ _ _ (by simp [GoType.Kind]) hnc]
  have hd : dispatch (.mk (.map A) (.map kvs)) (.map V)
      = convert2mapLoop (.mk (.map A) (.map kvs)) V (kvs.map Prod.fst)
          (.mk (.map V) (.map [])) := by
    simp only [dispatch, New, Value.Elem, Value.Kind, GoType.Kind]
    rw [convert2map]
    simp [Value.Kind, GoType.Kind, Value.MapKeys, Value.Set, MakeMap]
  simp only [derefLoop, hd, rewrap_zero]

/-! ## Records -/

theorem fieldStep_embedded (v : Value) (ft : Field) (h : ft.Anonymous = true) :
    fieldStep v ft = convert v ft.Typ := by
  simp [fieldStep, h]

theorem fieldStep_missing (v : Value) (ft : Field) (h : ft.Anonymous = false)
    (hmv : v.MapIndex (lookupKey ft) = .invalid) :
    fieldStep v ft = (.invalid, some (.InvalidMapKey ft)) := by
  simp [fieldStep, h, hmv, Value.IsValid]

theorem fieldStep_named (v : Value) (ft : Field) (h : ft.Anonymous = false) (t : GoType)
    (d : Data) (hmv : v.MapIndex (lookupKey ft) = .mk t d) :
    fieldStep v ft = convert (.mk t d) ft.Typ := by
  simp [fieldStep, h, hmv, Value.IsValid]

theorem fieldStep_ok_typ (v : Value) (ft : Field) (h : (fieldStep v ft).2 = none) :
    (fieldStep v ft).1 = .mk ft.Typ (fieldStep v ft).1.data := by
  cases ha : ft.Anonymous with
  | true => rw [fieldStep_embedded v ft ha]; exact convert_mk_data _ _
  | false =>
    cases hmv : v.MapIndex (lookupKey ft) with
    | invalid => rw [fieldStep_missing v ft ha hmv] at h; simp at h
    | mk t d => rw [fieldStep_named v ft ha t d hmv]; exact convert_mk_data _ _

theorem MapIndex_invalid_of_not_mem (e : GoType) (kvs : List (String × Data)) (k : String)
    (h : k ∉ (Value.mk (.map e) (.map kvs)).MapKeys) :
    (Value.mk (.map e) (.map kvs)).MapIndex k = .invalid := by
  have hl : kvs.lookup k = none := by
    rw [List.lookup_eq_none_iff]
    intro p hp
    have hne : k ≠ p.1 := by
      intro hc
      apply h
      simp only [Value.MapKeys, List.mem_map]
      exact ⟨p, hp, hc.symm⟩
    simpa using hne
  simp [Value.MapIndex, hl]

theorem convert2structLoop_fail (v : Value) (pre : List Field) (ft : Field) (post : List Field)
    (e : Err) :
    ∀ (i : Nat) (r : Value), (∀ g ∈ pre, g.Exported = true → (fieldStep v g).2 = none) →
      ft.Exported = true → (fieldStep v ft).2 = some e →
      (convert2structLoop v (pre ++ ft :: post) i r).2 = some e := by
  induction pre with
  | nil =>
    intro i r _ hset hft
    rw [List.nil_append, convert2structLoop_eq]
    rcases hc : fieldStep v ft with ⟨c, e'⟩
    rw [hc] at hft
    have he : e' = some e := hft
    subst he
    simp [hset]
  | cons g rest ih =>
    intro i r hpre hset hft
    rw [List.cons_append, convert2structLoop_eq]
    have hrest : ∀ g' ∈ rest, g'.Exported = true → (fieldStep v g').2 = none :=
      fun g' hg' => hpre g' (List.mem_cons_of_mem _ hg')
    cases hg : g.Exported with
    | false => simp only [if_true]; exact ih _ _ hrest hset hft
    | true =>
      have hgs := hpre g (List.mem_cons_self _ _) hg
      rcases hc : fieldStep v g with ⟨c, e'⟩
      rw [hc] at hgs
      have he : e' = none := hgs
      subst he
      simp only [Bool.true_eq_false, if_false]
      exact ih _ _ hrest hset hft

/-- What the loop of `convert2struct` leaves in the struct: as many fields as before, the
fields before `i0` untouched; and when it ends without error, every settable field of
`fs` has converted and holds its converted value, every other field holds what it held. -/
theorem convert2structLoop_spec (v : Value) (t : GoType) (fs : List Field) :
    ∀ (i0 : Nat) (ds : List Data),
      ∃ ds' : List Data,
        (convert2structLoop v fs i0 (.mk t (.struct ds))).1 = .mk t (.struct ds') ∧
        ds'.length = ds.length ∧
        (∀ q : Nat, q < i0 → ds'[q]? = ds[q]?) ∧
        ((convert2structLoop v fs i0 (.mk t (.struct ds))).2 = none →
          ∀ (p : Nat) (ft : Field), fs[p]? = some ft →
            (ft.Exported = true → (fieldStep v ft).2 = none ∧
              (i0 + p < ds.length → ds'[i0 + p]? = some (fieldStep v ft).1.data)) ∧
            (ft.Exported = false → ds'[i0 + p]? = ds[i0 + p]?)) := by
  induction fs with
  | nil =>
    intro i0 ds
    refine ⟨ds, by rw [convert2structLoop], rfl, fun _ _ => rfl, ?_⟩
    intro _ p ft h
    simp at h
  | cons f rest ih =>
    intro i0 ds
    rw [convert2structLoop_eq]
    cases hf : f.Exported with
    | false =>
      simp only [if_true]
      obtain ⟨ds', h1, h2, h3, h4⟩ := ih (i0 + 1) ds
      refine ⟨ds', h1, h2, fun q hq => h3 q (by omega), ?_⟩
      intro hok p ft hp
      cases p with
      | zero =>
        rw [List.getElem?_cons_zero] at hp
        cases hp
        exact ⟨fun hc => (by rw [hf] at hc; cases hc), fun _ => h3 i0 (by omega)⟩
      | succ p =>
        rw [List.getElem?_cons_succ] at hp
        have := h4 hok p ft hp
        rw [show i0 + 1 + p = i0 + (p + 1) by omega] at this
        exact this
    | true =>
      simp only [Bool.true_eq_false, if_false]
      rcases hc : fieldStep v f with ⟨c, _ | e⟩
      · have hcm : c = .mk f.Typ c.data := by
          have := fieldStep_ok_typ v f (by rw [hc])
          rwa [hc] at this
        simp only
        rw [hcm]
        simp only [Value.SetField]
        obtain ⟨ds', h1, h2, h3, h4⟩ := ih (i0 + 1) (ds.set i0 c.data)
        refine ⟨ds', h1, by rw [h2, List.length_set], ?_, ?_⟩
        · intro q hq
          rw [h3 q (by omega), List.getElem?_set_ne (by omega)]
        · intro hok p ft hp
          cases p with
          | zero =>
            rw [List.getElem?_cons_zero] at hp
            cases hp
            refine ⟨fun _ => ⟨by rw [hc], fun hlt => ?_⟩, fun hcx => (by rw [hf] at hcx; cases hcx)⟩
            rw [Nat.add_zero] at hlt ⊢
            rw [h3 i0 (by omega), List.getElem?_set_self hlt, hc]
          | succ p =>
            rw [List.getElem?_cons_succ] at hp
            have := h4 hok p ft hp
            rw [show i0 + 1 + p = i0 + (p + 1) by omega, List.length_set] at this
            refine ⟨this.1, fun hu => ?_⟩
            rw [this.2 hu, List.getElem?_set_ne (by omega)]
      · simp only
        refine ⟨ds, rfl, rfl, fun _ _ => rfl, fun hok => ?_⟩
        simp at hok

theorem not_convertible_map_struct (A : GoType) (fs : List Field) :
    (GoType.map A).ConvertibleTo (.struct fs) = false := by
  simp [GoType.ConvertibleTo, convertOp, GoType.Kind, kindOp, haveIdenticalUnderlyingType,
    implements]

theorem length_ZeroFields (fs : List Field) : (ZeroFields fs).length = fs.length := by
  induction fs with
  | nil => rfl
  | cons f rest ih => simp [ZeroFields, ih]

theorem ZeroFields_getElem? (fs : List Field) :
    ∀ (i : Nat) (f : Field), fs[i]? = some f → (ZeroFields fs)[i]? = some (ZeroData f.Typ) := by
  induction fs with
  | nil => intro i f h; simp at h
  | cons g rest ih =>
    intro i f h
    cases i with
    | zero =>
      rw [List.getElem?_cons_zero] at h
      cases h
      simp [ZeroFields]
    | succ i =>
      rw [List.getElem?_cons_succ] at h
      simpa [ZeroFields] using ih i f h

/-- A map against a struct type goes through the loop of `convert2struct`, started on the
zero struct. -/
theorem convert_struct_tail (A : GoType) (kvs : List (String × Data)) (fs : List Field) :
    convert (.mk (.map A) (.map kvs)) (.struct fs)
      = convert2structLoop (.mk (.map A) (.map kvs)) fs 0
          (.mk (.struct fs) (.struct (ZeroFields fs))) := by
  rw [convert_tail _ _ _ (by simp [GoType.Kind]) (not_convertible_map_struct A fs)]
  have hd : dispatch (.mk (.map A) (.map kvs)) (.struct fs)
      = convert2structLoop (.mk (.map A) (.map kvs)) fs 0
          (.mk (.struct fs) (.struct (ZeroFields fs))) := by
    simp only [dispatch, New, Value.Elem, Value.Kind, GoType.Kind, ZeroData]
    rw [convert2struct]
    simp [Value.Kind, GoType.Kind]
  simp only [derefLoop, hd, rewrap_zero]

/-! ## Values held in an interface, and targets under pointers -/

/-- A value held in an interface converts as the value itself. -/
theorem convert_iface_unwrap (vt : GoType) (d : Data) (t : GoType) (hk : vt.Kind ≠ .Interface) :
    convert (.mk .iface (.iface vt d)) t = convert (.mk vt d) t := by
  cases h : vt.ConvertibleTo t with
  | true => rw [convert_iface_direct vt d t h, convert_direct vt d t hk h]
  | false => rw [convert_iface_tail vt d t h, convert_tail vt d t hk h]

theorem derefLoop_add : ∀ (t : GoType) (n m : Nat),
    derefLoop t (n + m) = ((derefLoop t n).1 + m, (derefLoop t n).2)
  | .ptr e, n, m => by
    have h := derefLoop_add e (n + 1) m
    simp only [derefLoop]
    rw [← h]
    congr 1
    omega
  | .bool, _, _ | .int, _, _ | .int64, _, _ | .uint, _, _ | .string, _, _ | .iface, _, _
  | .slice _, _, _ | .map _, _, _ | .struct _, _, _ | .func _, _, _ | .chan _, _, _ => by
    simp [derefLoop]

theorem derefLoop_ptrN_add (k : Nat) (T : GoType) :
    ∀ n : Nat, derefLoop (GoType.ptrN k T) n = derefLoop T (n + k) := by
  induction k with
  | zero => intro n; rfl
  | succ k ih =>
    intro n
    rw [GoType.ptrN, derefLoop, ih (n + 1)]
    congr 1
    omega

theorem derefLoop_of_not_ptr (b : GoType) (n : Nat) (h : b.Kind ≠ .Ptr) :
    derefLoop b n = (n, b) := by
  cases b <;> simp_all [derefLoop, GoType.Kind]

/-- The loop over the pointers, on a type `b` that is no pointer under `k` pointers, ends
with `deref = k` and `t = b`. -/
theorem derefLoop_ptrN_base (k : Nat) (b : GoType) (h : b.Kind ≠ .Ptr) :
    derefLoop (GoType.ptrN k b) 0 = (k, b) := by
  rw [derefLoop_ptrN_add, derefLoop_of_not_ptr b _ h, Nat.zero_add]

theorem ptrN_add (j k : Nat) (t : GoType) :
    GoType.ptrN (j + k) t = GoType.ptrN k (GoType.ptrN j t) := by
  induction k with
  | zero => rfl
  | succ k ih => rw [← Nat.add_assoc, GoType.ptrN, ih]; rfl

theorem dataPtrN_add (j k : Nat) (d : Data) :
    Data.ptrN (j + k) d = Data.ptrN k (Data.ptrN j d) := by
  induction k with
  | zero => rfl
  | succ k ih => rw [← Nat.add_assoc, Data.ptrN, ih]; rfl

theorem not_convertible_to_ptr (vt e : GoType) (h : vt.Kind ≠ .Ptr) :
    vt.ConvertibleTo (.ptr e) = false := by
  have h1 : kindOp vt.Kind (GoType.ptr e).Kind = none :=
    kindOp_to_other _ _ (by simp [GoType.Kind]) (by simp [GoType.Kind]) (by simp [GoType.Kind])
      (by simp [GoType.Kind])
  have h2 : haveIdenticalUnderlyingType (.ptr e) vt = false := by
    cases hc : haveIdenticalUnderlyingType (.ptr e) vt with
    | false => rfl
    | true => exact absurd (haveIdentical_kind _ _ hc).symm h
  unfold GoType.ConvertibleTo convertOp implements
  rw [h1, h2]
  rfl

theorem not_convertible_to_ptrN (vt T : GoType) (k : Nat) (h : vt.Kind ≠ .Ptr)
    (hT : vt.ConvertibleTo T = false) : vt.ConvertibleTo (GoType.ptrN k T) = false := by
  cases k with
  | zero => exact hT
  | succ k => exact not_convertible_to_ptr vt _ h

/-- The tail of `convert` on the target `T` under `k` pointers: the error of the
conversion against `T`, and its value in `k` boxes. -/
theorem convert_under_ptrN (vt : GoType) (d : Data) (T : GoType) (k : Nat)
    (hk : vt.Kind ≠ .Interface) (h1 : vt.ConvertibleTo T = false)
    (h2 : vt.ConvertibleTo (GoType.ptrN k T) = false) :
    convert (.mk vt d) (GoType.ptrN k T)
      = (.mk (GoType.ptrN k T) (Data.ptrN k (convert (.mk vt d) T).1.data),
          (convert (.mk vt d) T).2) := by
  rw [convert_tail vt d _ hk h2, convert_tail vt d T hk h1, derefLoop_ptrN_add, Nat.zero_add]
  have hadd := derefLoop_add T 0 k
  rw [Nat.zero_add] at hadd
  rw [hadd]
  obtain ⟨x, hx⟩ := dispatch_typ (.mk vt d) (derefLoop T 0).2
  obtain ⟨hT, _, _⟩ := derefLoop_ptrN T 0
  rw [Nat.sub_zero] at hT
  simp only [hx, rewrap_mk, Value.data, ptrN_add, dataPtrN_add, ← hT]

/-! ## The `switch elm.Kind()` of `convert` -/

theorem dispatch_slice (A T : GoType) (xs : List Data) :
    dispatch (.mk (.slice A) (.slice xs)) (.slice T)
      = convert2sliceLoop T (xs.map (Value.mk A)) (.mk (.slice T) (.slice [])) := by
  simp only [dispatch, New, Value.Elem, Value.Kind, GoType.Kind]
  rw [convert2slice]
  simp [Value.Kind, GoType.Kind, Value.elems, Value.Set, MakeSlice]

theorem dispatch_struct (A : GoType) (kvs : List (String × Data)) (fs : List Field) :
    dispatch (.mk (.map A) (.map kvs)) (.struct fs)
      = convert2structLoop (.mk (.map A) (.map kvs)) fs 0
          (.mk (.struct fs) (.struct (ZeroFields fs))) := by
  simp only [dispatch, New, Value.Elem, Value.Kind, GoType.Kind, ZeroData]
  rw [convert2struct]
  simp [Value.Kind, GoType.Kind]

theorem dispatch_slice_mismatch (v : Value) (T : GoType) (h : v.Kind ≠ .Slice) :
    dispatch v (.slice T) = (Zero (.slice T), some (.OnlySliceToSlice v.Kind)) := by
  unfold dispatch
  simp only [New, Value.Elem]
  rw [show (Value.mk (GoType.slice T) (ZeroData (GoType.slice T))).Kind = Kind.Slice from rfl]
  simp only
  rw [convert2slice]
  simp only [ne_eq, h, not_false_eq_true, if_true]
  rfl

theorem dispatch_map_mismatch (v : Value) (V : GoType) (h : v.Kind ≠ .Map) :
    dispatch v (.map V) = (Zero (.map V), some (.OnlyMapToMap v.Kind)) := by
  unfold dispatch
  simp only [New, Value.Elem]
  rw [show (Value.mk (GoType.map V) (ZeroData (GoType.map V))).Kind = Kind.Map from rfl]
  simp only
  rw [convert2map]
  simp only [ne_eq, h, not_false_eq_true, if_true]
  rfl

theorem dispatch_struct_mismatch (v : Value) (fs : List Field) (h : v.Kind ≠ .Map) :
    dispatch v (.struct fs) = (Zero (.struct fs), some (.OnlyMapToStruct v.Kind)) := by
  unfold dispatch
  simp only [New, Value.Elem]
  rw [show (Value.mk (GoType.struct fs) (ZeroData (GoType.struct fs))).Kind = Kind.Struct from rfl]
  simp only
  rw [convert2struct]
  simp only [ne_eq, h, not_false_eq_true, if_true]
  rfl

theorem dispatch_other (v : Value) (b : GoType) (h1 : b.Kind ≠ .Struct) (h2 : b.Kind ≠ .Map)
    (h3 : b.Kind ≠ .Slice) : dispatch v b = (Zero b, some (.UnsupportedElementType b.Kind)) := by
  cases b <;> simp_all [GoType.Kind] <;> rfl

/-- The tail of `convert`, for a target that is `b` under `k` pointers, `b` being no
pointer. -/
theorem convert_tail_ptrN (vt : GoType) (d : Data) (k : Nat) (b : GoType)
    (hk : vt.Kind ≠ .Interface) (hb : b.Kind ≠ .Ptr)
    (hnc : vt.ConvertibleTo (GoType.ptrN k b) = false) :
    convert (.mk vt d) (GoType.ptrN k b)
      = (rewrap k (dispatch (.mk vt d) b).1, (dispatch (.mk vt d) b).2) := by
  rw [convert_tail vt d _ hk hnc, derefLoop_ptrN_base k b hb]

/-! ## The loop of `convert2struct` up to the first failing field -/

/-- When a settable field fails after the settable fields before it have converted, the
loop ends with its error, and leaves every field from the failing one on as it was. -/
theorem convert2structLoop_abort (v : Value) (t : GoType) (pre : List Field) (ft : Field)
    (post : List Field) (e : Err) :
    ∀ (i0 : Nat) (ds : List Data),
      (∀ g ∈ pre, g.Exported = true → (fieldStep v g).2 = none) →
      ft.Exported = true → (fieldStep v ft).2 = some e →
      ∃ ds' : List Data,
        convert2structLoop v (pre ++ ft :: post) i0 (.mk t (.struct ds))
          = (.mk t (.struct ds'), some e) ∧
        ds'.length = ds.length ∧
        ∀ q : Nat, i0 + pre.length ≤ q → ds'[q]? = ds[q]? := by
  induction pre with
  | nil =>
    intro i0 ds _ hset hft
    rw [List.nil_append, convert2structLoop_eq]
    rcases hc : fieldStep v ft with ⟨c, e'⟩
    rw [hc] at hft
    have he : e' = some e := hft
    subst he
    exact ⟨ds, by simp [hset], rfl, fun _ _ => rfl⟩
  | cons g rest ih =>
    intro i0 ds hpre hset hft
    rw [List.cons_append, convert2structLoop_eq]
    have hrest : ∀ g' ∈ rest, g'.Exported = true → (fieldStep v g').2 = none :=
      fun g' hg' => hpre g' (List.mem_cons_of_mem _ hg')
    cases hg : g.Exported with
    | false =>
      simp only [if_true]
      obtain ⟨ds', h1, h2, h3⟩ := ih (i0 + 1) ds hrest hset hft
      exact ⟨ds', h1, h2, fun q hq => h3 q (by simp only [List.length_cons] at hq; omega)⟩
    | true =>
      have hgs := hpre g (List.mem_cons_self _ _) hg
      have hcm := fieldStep_ok_typ v g hgs
      rcases hc : fieldStep v g with ⟨c, e'⟩
      rw [hc] at hgs hcm
      have he : e' = none := hgs
      subst he
      simp only [Bool.true_eq_false, if_false]
      have hcm' : c = .mk g.Typ c.data := hcm
      rw [hcm']
      simp only [Value.SetField]
      obtain ⟨ds', h1, h2, h3⟩ := ih (i0 + 1) (ds.set i0 c.data) hrest hset hft
      refine ⟨ds', h1, by rw [h2, List.length_set], ?_⟩
      intro q hq
      simp only [List.length_cons] at hq
      rw [h3 q (by omega), List.getElem?_set_ne (by omega)]

/-! ## Keys that a record does not use -/

theorem not_convertible_of_recordIgnores (k : String) (A t : GoType)
    (h : recordIgnores k t = true) : (GoType.map A).ConvertibleTo t = false := by
  cases t <;> simp [recordIgnores] at h
  · exact not_convertible_to_ptr _ _ (by simp [GoType.Kind])
  · exact not_convertible_map_struct A _

theorem fieldStep_congr (A : GoType) (kvs kvs' : List (String × Data)) (k : String)
    (hsame : ∀ k' : String, k' ≠ k → kvs'.lookup k' = kvs.lookup k') (f : Field)
    (hn : f.Anonymous = false) (hk : lookupKey f ≠ k) :
    fieldStep (.mk (.map A) (.map kvs')) f = fieldStep (.mk (.map A) (.map kvs)) f := by
  have hm : (Value.mk (.map A) (.map kvs')).MapIndex (lookupKey f)
      = (Value.mk (.map A) (.map kvs)).MapIndex (lookupKey f) := by
    simp only [Value.MapIndex, hsame _ hk]
  simp [fieldStep, hn, hm]

/-- Two maps of the same type that agree off the key `k` convert alike against every
record that does not use `k`. The induction is on a bound `n` of the size of the type. -/
theorem convert_frame_aux (A : GoType) (kvs kvs' : List (String × Data)) (k : String)
    (hsame : ∀ k' : String, k' ≠ k → kvs'.lookup k' = kvs.lookup k') :
    ∀ n : Nat,
      (∀ t : GoType, sizeOf t < n → recordIgnores k t = true →
        convert (.mk (.map A) (.map kvs')) t = convert (.mk (.map A) (.map kvs)) t) ∧
      (∀ fs : List Field, sizeOf fs < n → fieldsIgnore k fs = true →
        ∀ (i : Nat) (r : Value),
          convert2structLoop (.mk (.map A) (.map kvs')) fs i r
            = convert2structLoop (.mk (.map A) (.map kvs)) fs i r) := by
  intro n
  induction n with
  | zero => exact ⟨fun _ h => absurd h (Nat.not_lt_zero _), fun _ h => absurd h (Nat.not_lt_zero _)⟩
  | succ n ih =>
    refine ⟨?_, ?_⟩
    · intro t ht hig
      cases t <;> simp only [recordIgnores, Bool.false_eq_true] at hig
      · rename_i e
        have hse : sizeOf e < n := by
          simp only [GoType.ptr.sizeOf_spec] at ht; omega
        have hnc' : (GoType.map A).ConvertibleTo e = false :=
          not_convertible_of_recordIgnores k A e hig
        have hp : (GoType.map A).ConvertibleTo (GoType.ptrN 1 e) = false :=
          not_convertible_to_ptr _ _ (by simp [GoType.Kind])
        have h1 := convert_under_ptrN (.map A) (.map kvs') e 1 (by simp [GoType.Kind]) hnc' hp
        have h2 := convert_under_ptrN (.map A) (.map kvs) e 1 (by simp [GoType.Kind]) hnc' hp
        have heq := ih.1 e hse hig
        rw [heq] at h1
        exact h1.trans h2.symm
      · rename_i fs
        have hsf : sizeOf fs < n := by
          simp only [GoType.struct.sizeOf_spec] at ht; omega
        rw [convert_struct_tail, convert_struct_tail]
        exact ih.2 fs hsf hig 0 _
    · intro fs hfs hig i r
      cases fs with
      | nil => rw [convert2structLoop, convert2structLoop]
      | cons f rest =>
        simp only [fieldsIgnore, Bool.and_eq_true, Bool.or_eq_true, Bool.not_eq_true'] at hig
        have hsr : sizeOf rest < n := by
          have := sizeOf_rest_lt f rest; omega
        have hst : sizeOf f.Typ < n := by
          have := sizeOf_Typ_lt f rest; omega
        have hrest := ih.2 rest hsr hig.2
        rw [convert2structLoop_eq, convert2structLoop_eq]
        cases hexp : f.Exported with
        | false => simp only [if_true]; exact hrest _ _
        | true =>
          have hstep : fieldStep (.mk (.map A) (.map kvs')) f
              = fieldStep (.mk (.map A) (.map kvs)) f := by
            rcases hig.1 with hc | hc
            · rw [hexp] at hc; cases hc
            · cases ha : f.Anonymous with
              | true =>
                rw [ha] at hc
                simp only [if_true] at hc
                rw [fieldStep_embedded _ _ ha, fieldStep_embedded _ _ ha]
                exact ih.1 f.Typ hst hc
              | false =>
                rw [ha] at hc
                simp only [Bool.false_eq_true, if_false, bne_iff_ne, ne_eq] at hc
                exact fieldStep_congr A kvs kvs' k hsame f ha hc
          rw [hstep]
          simp only [Bool.true_eq_false, if_false]
          rcases fieldStep (.mk (.map A) (.map kvs)) f with ⟨c, _ | e⟩
          · exact hrest _ _
          · rfl

/-- Two maps of the same type that agree off the key `k` convert alike against a record
that does not use `k`. -/
theorem convert_frame (A : GoType) (kvs kvs' : List (String × Data)) (k : String)
    (hsame : ∀ k' : String, k' ≠ k → kvs'.lookup k' = kvs.lookup k') (fs : List Field)
    (h : fieldsIgnore k fs = true) :
    convert (.mk (.map A) (.map kvs')) (.struct fs)
      = convert (.mk (.map A) (.map kvs)) (.struct fs) :=
  (convert_frame_aux A kvs kvs' k hsame (sizeOf (GoType.struct fs) + 1)).1 _
    (Nat.lt_succ_self _) h

/-- On success, a field that cannot be set holds the zero value of its type. -/
theorem unsettable_field_zero (A : GoType) (kvs : List (String × Data)) (fs : List Field)
    (i : Nat) (f : Field) (hf : fs[i]? = some f) (hun : f.Exported = false)
    (hok : (convert (.mk (.map A) (.map kvs)) (.struct fs)).2 = none) :
    (convert (.mk (.map A) (.map kvs)) (.struct fs)).1.Field i = Zero f.Typ := by
  obtain ⟨ds', h1, _, _, h4⟩ := convert2structLoop_spec (.mk (.map A) (.map kvs))
    (.struct fs) fs 0 (ZeroFields fs)
  rw [← convert_struct_tail] at h1 h4
  have hz := (h4 hok i f hf).2 hun
  rw [Nat.zero_add, ZeroFields_getElem? fs i f hf] at hz
  rw [h1]
  simp only [Value.Field, hf, hz]
  rfl

/-! ## The lookup key of a field -/

theorem headD_splitOnP {α : Type} (p : α → Bool) : ∀ l : List α,
    (List.splitOnP p l).headD [] = l.takeWhile (fun c => !p c)
  | [] => by simp
  | x :: xs => by
    rw [List.splitOnP_cons]
    by_cases h : p x = true
    · simp [h]
    · have ih := headD_splitOnP p xs
      have hne := List.splitOnP_ne_nil p xs
      cases hs : List.splitOnP p xs with
      | nil => exact absurd hs hne
      | cons a as =>
        rw [hs] at ih
        simp at ih
        simp [h, List.modifyHead, ih]

theorem firstSegment_eq_spec (s : String) : firstSegment s = specFirstSegment s := by
  unfold firstSegment specFirstSegment List.splitOn
  rw [headD_splitOnP]
  rfl

theorem lookupKey_eq_spec (ft : Field) : lookupKey ft = specLookupKey ft.Name ft.JsonTag := by
  unfold lookupKey specLookupKey
  rw [← firstSegment_eq_spec]
  by_cases ht : ft.JsonTag = ""
  · simp [ht]
  · by_cases h1 : firstSegment (trimQuotes ft.JsonTag) = "-"
    · simp [ht, h1]
    · by_cases h2 : firstSegment (trimQuotes ft.JsonTag) = ""
      · simp [ht, h2]
      · simp [ht, h1, h2]

theorem rdropWhile_append_rtakeWhile {α : Type} (p : α → Bool) (l : List α) :
    List.rdropWhile p l ++ List.rtakeWhile p l = l := by
  unfold List.rdropWhile List.rtakeWhile
  rw [← List.reverse_append, List.takeWhile_append_dropWhile, List.reverse_reverse]

/-- What `trimQuotes` leaves of `s`: `s` is a run of double quotes, then the result, then a
run of double quotes, and the result neither begins nor ends with a double quote. -/
theorem trimQuotes_spec (s : String) :
    ∃ a b : List Char, s.data = a ++ (trimQuotes s).data ++ b ∧
      (∀ c ∈ a, c = Char.ofNat 34) ∧ (∀ c ∈ b, c = Char.ofNat 34) ∧
      (trimQuotes s).data.head? ≠ some (Char.ofNat 34) ∧
      (trimQuotes s).data.getLast? ≠ some (Char.ofNat 34) := by
  have hu : (trimQuotes s).data
      = List.rdropWhile (· == Char.ofNat 34) (s.data.dropWhile (· == Char.ofNat 34)) := rfl
  rw [hu]
  refine ⟨s.data.takeWhile (· == Char.ofNat 34),
    List.rtakeWhile (· == Char.ofNat 34) (s.data.dropWhile (· == Char.ofNat 34)),
    ?_, ?_, ?_, ?_, ?_⟩
  · rw [List.append_assoc, rdropWhile_append_rtakeWhile, List.takeWhile_append_dropWhile]
  · intro c hc
    simpa using List.mem_takeWhile_imp hc
  · intro c hc
    simpa using List.mem_rtakeWhile_imp hc
  · intro hh
    obtain ⟨t, ht⟩ := List.rdropWhile_prefix (· == Char.ofNat 34)
      (s.data.dropWhile (· == Char.ofNat 34))
    have h1 := List.head?_dropWhile_not (· == Char.ofNat 34) s.data
    rw [← ht] at h1
    cases hc : List.rdropWhile (· == Char.ofNat 34)
        (s.data.dropWhile (· == Char.ofNat 34)) with
    | nil => rw [hc] at hh; simp at hh
    | cons c u =>
      rw [hc] at hh h1
      simp at hh h1
      exact h1 hh
  · intro hh
    have hne : List.rdropWhile (· == Char.ofNat 34)
        (s.data.dropWhile (· == Char.ofNat 34)) ≠ [] := by
      intro h0; rw [h0] at hh; simp at hh
    have h2 := List.rdropWhile_last_not (· == Char.ofNat 34) _ hne
    rw [List.getLast?_eq_getLast _ hne] at hh
    simp at hh h2
    exact h2 hh

/-- A named field is converted from the entry of its lookup key, and fails when the map
has no such entry. -/
theorem fieldStep_of_named (v : Value) (ft : Field) (h : ft.Anonymous = false) :
    fieldStep v ft =
      if (v.MapIndex (lookupKey ft)).IsValid = true
      then convert (v.MapIndex (lookupKey ft)) ft.Typ
      else (.invalid, some (.InvalidMapKey ft)) := by
  cases hmv : v.MapIndex (lookupKey ft) with
  | invalid => rw [fieldStep_missing v ft h hmv]; simp [Value.IsValid]
  | mk t d => rw [fieldStep_named v ft h t d hmv]; simp [Value.IsValid]

theorem MapIndex_invalid_of_lookup (e : GoType) (kvs : List (String × Data)) (k : String)
    (h : kvs.lookup k = none) : (Value.mk (.map e) (.map kvs)).MapIndex k = .invalid := by
  simp [Value.MapIndex, h]

/-! ## The recursion of `convert` -/

theorem convert2sliceLoop_eq_with (et : GoType) (xs : List Value) :
    ∀ r : Value, convert2sliceLoop et xs r = convert2sliceLoopWith convert et xs r := by
  induction xs with
  | nil => intro r; rw [convert2sliceLoop, convert2sliceLoopWith]
  | cons x rest ih =>
    intro r
    rw [convert2sliceLoop, convert2sliceLoopWith]
    rcases convert x et with ⟨c, _ | e⟩
    · exact ih _
    · rfl

theorem convert2mapLoop_eq_with (v : Value) (et : GoType) (keys : List String) :
    ∀ r : Value, convert2mapLoop v et keys r = convert2mapLoopWith convert v et keys r := by
  induction keys with
  | nil => intro r; rw [convert2mapLoop, convert2mapLoopWith]
  | cons k rest ih =>
    intro r
    rw [convert2mapLoop, convert2mapLoopWith]
    rcases convert (v.MapIndex k) et with ⟨c, _ | e⟩
    · exact ih _
    · rfl

theorem convert2structLoop_eq_with (v : Value) (fs : List Field) :
    ∀ (i : Nat) (r : Value),
      convert2structLoop v fs i r = convert2structLoopWith convert v fs i r := by
  induction fs with
  | nil => intro i r; rw [convert2structLoop, convert2structLoopWith]
  | cons ft rest ih =>
    intro i r
    rw [convert2structLoop, convert2structLoopWith]
    split
    · exact ih _ _
    · simp only
      split
      · rfl
      · exact ih _ _

theorem convert2slice_eq_with (v r : Value) (rt : GoType) :
    convert2slice v r rt = convert2sliceWith convert v r rt := by
  rw [convert2slice.eq_def]
  unfold convert2sliceWith
  split
  · rfl
  · cases rt <;> simp only [convert2sliceLoop_eq_with]

theorem convert2map_eq_with (v r : Value) (rt : GoType) :
    convert2map v r rt = convert2mapWith convert v r rt := by
  rw [convert2map.eq_def]
  unfold convert2mapWith
  split
  · rfl
  · cases rt <;> simp only [convert2mapLoop_eq_with]

theorem convert2struct_eq_with (v r : Value) (rt : GoType) :
    convert2struct v r rt = convert2structWith convert v r rt := by
  rw [convert2struct.eq_def]
  unfold convert2structWith
  split
  · rfl
  · cases rt <;> simp only [convert2structLoop_eq_with]

/-- The equation of the recursion: `convert` is its body over `convert`. -/
theorem convert_eq_with (v : Value) (t : GoType) : convert v t = convertWith convert v t := by
  cases hh : convertHead v t with
  | inl res => rw [convert_of_head_inl hh]; simp only [convertWith, hh]
  | inr v' =>
    rw [convert_of_head_inr hh]
    simp only [convertWith, hh, dispatch, rewrap, convert2struct_eq_with, convert2map_eq_with,
      convert2slice_eq_with]
    split <;> rfl

theorem size_pos : ∀ t : GoType, 0 < t.size
  | .ptr _ | .slice _ | .map _ | .chan _ | .struct _ | .bool | .int | .int64 | .uint
  | .string | .iface | .func _ => by simp [GoType.size]

theorem derefLoop_size : ∀ (t : GoType) (n : Nat), (derefLoop t n).2.size ≤ t.size
  | .ptr e, n => by
    have h := derefLoop_size e (n + 1)
    simp only [derefLoop, GoType.size]
    omega
  | .bool, _ | .int, _ | .int64, _ | .uint, _ | .string, _ | .iface, _ | .slice _, _
  | .map _, _ | .struct _, _ | .func _, _ | .chan _, _ => by simp [derefLoop]

theorem size_field_lt (f : Field) : ∀ fs : List Field, f ∈ fs → f.Typ.size < fieldsSize fs
  | [], h => by cases h
  | g :: rest, h => by
    rw [List.mem_cons] at h
    simp only [fieldsSize]
    rcases h with rfl | h
    · omega
    · have := size_field_lt f rest h
      omega

theorem convert2sliceLoopWith_congr (c1 c2 : Value → GoType → Value × Option Err)
    (et : GoType) (h : ∀ x : Value, c1 x et = c2 x et) (xs : List Value) :
    ∀ r : Value, convert2sliceLoopWith c1 et xs r = convert2sliceLoopWith c2 et xs r := by
  induction xs with
  | nil => intro r; rfl
  | cons x rest ih =>
    intro r
    simp only [convert2sliceLoopWith, h x]
    rcases c2 x et with ⟨c, _ | e⟩
    · exact ih _
    · rfl

theorem convert2mapLoopWith_congr (c1 c2 : Value → GoType → Value × Option Err) (v : Value)
    (et : GoType) (h : ∀ x : Value, c1 x et = c2 x et) (keys : List String) :
    ∀ r : Value, convert2mapLoopWith c1 v et keys r = convert2mapLoopWith c2 v et keys r := by
  induction keys with
  | nil => intro r; rfl
  | cons k rest ih =>
    intro r
    simp only [convert2mapLoopWith, h (v.MapIndex k)]
    rcases c2 (v.MapIndex k) et with ⟨c, _ | e⟩
    · exact ih _
    · rfl

theorem convert2structLoopWith_congr (c1 c2 : Value → GoType → Value × Option Err)
    (v : Value) (fs : List Field) :
    (∀ f ∈ fs, ∀ x : Value, c1 x f.Typ = c2 x f.Typ) → ∀ (i : Nat) (r : Value),
      convert2structLoopWith c1 v fs i r = convert2structLoopWith c2 v fs i r := by
  induction fs with
  | nil => intro _ i r; rfl
  | cons ft rest ih =>
    intro h i r
    have hft := h ft (List.mem_cons_self _ _)
    have hrest := ih (fun f hf => h f (List.mem_cons_of_mem _ hf))
    simp only [convert2structLoopWith, hft]
    split
    · exact hrest _ _
    · split
      · rfl
      · exact hrest _ _

/-- The body of `convert` on the target `t` calls `call` on targets smaller than `t`
only. -/
theorem convertWith_congr (c1 c2 : Value → GoType → Value × Option Err) (v : Value)
    (t : GoType)
    (h : ∀ (v' : Value) (t' : GoType), t'.size < t.size → c1 v' t' = c2 v' t') :
    convertWith c1 v t = convertWith c2 v t := by
  have hb := derefLoop_size t 0
  have hs : ∀ (w r : Value), convert2structWith c1 w r (derefLoop t 0).2
      = convert2structWith c2 w r (derefLoop t 0).2 := by
    intro w r
    unfold convert2structWith
    split
    · rfl
    · cases hb' : (derefLoop t 0).2 with
      | struct fs =>
        simp only
        apply convert2structLoopWith_congr
        intro f hf x
        apply h
        have := size_field_lt f fs hf
        rw [hb'] at hb
        simp only [GoType.size] at hb
        omega
      | _ => rfl
  have hm : ∀ (w r : Value), convert2mapWith c1 w r (derefLoop t 0).2
      = convert2mapWith c2 w r (derefLoop t 0).2 := by
    intro w r
    unfold convert2mapWith
    split
    · rfl
    · cases hb' : (derefLoop t 0).2 with
      | map et =>
        simp only
        apply convert2mapLoopWith_congr
        intro x
        apply h
        rw [hb'] at hb
        simp only [GoType.size] at hb
        omega
      | _ => rfl
  have hl : ∀ (w r : Value), convert2sliceWith c1 w r (derefLoop t 0).2
      = convert2sliceWith c2 w r (derefLoop t 0).2 := by
    intro w r
    unfold convert2sliceWith
    split
    · rfl
    · cases hb' : (derefLoop t 0).2 with
      | slice et =>
        simp only
        apply convert2sliceLoopWith_congr
        intro x
        apply h
        rw [hb'] at hb
        simp only [GoType.size] at hb
        omega
      | _ => rfl
  unfold convertWith
  cases convertHead v t with
  | inl res => rfl
  | inr v' => simp only [hs, hm, hl]

/-- A run of `convert` on the target `t` goes no deeper than the size of `t`: the body
nested `n` times is `convert` on `t`, whatever stands at the bottom, once `n` is the size
of `t` or more. -/
theorem convertIter_eq (bottom : Value → GoType → Value × Option Err) :
    ∀ (n : Nat) (v : Value) (t : GoType), t.size ≤ n → convertIter bottom n v t = convert v t := by
  intro n
  induction n with
  | zero =>
    intro v t h
    have := size_pos t
    omega
  | succ n ih =>
    intro v t h
    rw [convert_eq_with v t]
    show convertWith (convertIter bottom n) v t = convertWith convert v t
    apply convertWith_congr
    intro v' t' hlt
    exact ih v' t' (by omega)

/-! ## Scalars of all the basic kinds -/

/-- One call of `convert` on a map and an unfolding of `struct { *T }`, alone or under a
pointer, calls `convert` on the same map and the pointer to the next unfolding, and fails
with the error of that call. -/
theorem convertWith_selfEmbed (call : Value → GoType → Value × Option Err) (A : GoType)
    (kvs : List (String × Data)) (n : Nat) (e : Err)
    (h : (call (.mk (.map A) (.map kvs)) (.ptr (selfEmbed n))).2 = some e) :
    (convertWith call (.mk (.map A) (.map kvs)) (selfEmbed (n + 1))).2 = some e ∧
    (convertWith call (.mk (.map A) (.map kvs)) (.ptr (selfEmbed (n + 1)))).2 = some e := by
  have hloop : ∀ r : Value, (convert2structLoopWith call (.mk (.map A) (.map kvs))
      [⟨"T", "", true, true, .ptr (selfEmbed n)⟩] 0 r).2 = some e := by
    intro r
    rcases hc : call (.mk (.map A) (.map kvs)) (.ptr (selfEmbed n)) with ⟨c, e'⟩
    rw [hc] at h
    have he : e' = some e := h
    subst he
    simp [convert2structLoopWith, hc]
  have h1 : convertHead (.mk (.map A) (.map kvs)) (selfEmbed (n + 1))
      = .inr (.mk (.map A) (.map kvs)) := by
    simp [convertHead, GoType.Kind, selfEmbed, not_convertible_map_struct]
  have h2 : convertHead (.mk (.map A) (.map kvs)) (.ptr (selfEmbed (n + 1)))
      = .inr (.mk (.map A) (.map kvs)) := by
    simp [convertHead, GoType.Kind, not_convertible_to_ptr (.map A) (selfEmbed (n + 1))
      (by simp [GoType.Kind])]
  constructor
  · simp only [convertWith, h1]
    simp only [selfEmbed, derefLoop, New, Value.Elem, Value.Kind, GoType.Kind,
      convert2structWith, ne_eq, not_true_eq_false, if_false]
    split <;> exact hloop _
  · simp only [convertWith, h2]
    simp only [selfEmbed, derefLoop, New, Value.Elem, Value.Kind, GoType.Kind,
      convert2structWith, ne_eq, not_true_eq_false, if_false]
    split <;> exact hloop _

/-- A run of `convert` on a map and the type `struct { *T }` unfolded `n + 1` times goes
more than `n` calls deep: nested `n` times, the body of `convert` still makes a call, on
the same map, and returns what that call returns for an error. -/
theorem convertIter_selfEmbed (A : GoType) (kvs : List (String × Data)) (e : Err) :
    ∀ n k : Nat,
      (convertIter (fun _ _ => (.invalid, some e)) n (.mk (.map A) (.map kvs))
        (.ptr (selfEmbed (n + k)))).2 = some e
  | 0, _ => rfl
  | n + 1, k => by
    have ih := convertIter_selfEmbed A kvs e n k
    have hk : n + 1 + k = (n + k) + 1 := by omega
    rw [hk]
    exact (convertWith_selfEmbed _ A kvs (n + k) e ih).2

/-! ## The claims -/

/-- C1. Arity check: when the number of arguments differs from the number of declared
parameters, `Invoke` returns the nil result slice and the parameter-count error; the
handler has not been called and no argument has been handed to the converter. -/
theorem Invoke_arity_check (f : Handler) (param : List Iface) (h : param.length ≠ f.NumIn) :
    Invoke f param =
      { out := none, err := some (.ParameterCountMismatch param.length f.NumIn),
        calls := [], converted := 0 } :=
  Invoke_of_mismatch f param h

theorem Invoke_arity_check_witness :
    [Iface.dyn .int (.int 3)].length ≠ handlerAdd.NumIn ∧
    Invoke handlerAdd [.dyn .int (.int 3)] =
      { out := none, err := some (.ParameterCountMismatch 1 2), calls := [], converted := 0 } :=
  ⟨by decide, Invoke_arity_check handlerAdd [.dyn .int (.int 3)] (by decide)⟩

theorem convert_seq_one :
    convert (.mk (.slice .iface) (.slice [.iface .int (.int 1)])) (.slice .int64)
      = (.mk (.slice .int64) (.slice [.int 1]), none) := by
  have h1 : convert (.mk .iface (.iface .int (.int 1))) .int64 = (.mk .int64 (.int 1), none) :=
    convert_iface_direct .int (.int 1) .int64 (by decide)
  rw [convert_slice_tail _ _ _ (by decide)]
  have h := convert2sliceLoop_ok .int64 [.mk .iface (.iface .int (.int 1))] (.slice .int64) []
    (by
      intro x hx
      rw [List.mem_singleton] at hx
      subst hx
      rw [h1])
  simp only [List.map_cons, List.map_nil, List.nil_append, h1] at h
  exact h

/-- C3, as stated, fails on the code for a variadic handler: `Call` at line 231 takes each
argument after the fixed ones for one value of the variadic parameter. For
`func(xs ...int64) int64` the argument `[]interface{}{1}` converts, against `[]int64`, and
`Call` panics, a `[]int64` being no `int64`: `Invoke` returns nothing. For
`func(args ...interface{}) int`, which returns `len(args)`, the argument
`[]interface{}{1, 2}` converts and `Invoke` returns 1, where the function returns 2 on the
converted argument. -/
theorem Invoke_success_counterexample :
    fromAll handlerLen.In [.dyn (.slice .iface) (.slice [.iface .int (.int 1)])]
      = [(.mk (.slice .int64) (.slice [.int 1]), none)] ∧
    Invoke handlerLen [.dyn (.slice .iface) (.slice [.iface .int (.int 1)])]
      = { out := none, err := none, calls := [[.mk (.slice .int64) (.slice [.int 1])]],
          converted := 1, panicked := true } ∧
    fromAll handlerCount.In
        [.dyn (.slice .iface) (.slice [.iface .int (.int 1), .iface .int (.int 2)])]
      = [(.mk (.slice .iface) (.slice [.iface .int (.int 1), .iface .int (.int 2)]), none)] ∧
    (Invoke handlerCount
        [.dyn (.slice .iface) (.slice [.iface .int (.int 1), .iface .int (.int 2)])]).out
      = some [.dyn .int (.int 1)] ∧
    handlerCount.Body [.mk (.slice .iface) (.slice [.iface .int (.int 1), .iface .int (.int 2)])]
      = [.mk .int (.int 2)] := by
  have h1 : fromAll handlerLen.In [.dyn (.slice .iface) (.slice [.iface .int (.int 1)])]
      = [(.mk (.slice .int64) (.slice [.int 1]), none)] := by
    simp only [fromAll, handlerLen, List.zipWith_cons_cons, List.zipWith_nil_right, from_dyn,
      convert_seq_one]
  have h2 : fromAll handlerCount.In
      [.dyn (.slice .iface) (.slice [.iface .int (.int 1), .iface .int (.int 2)])]
      = [(.mk (.slice .iface) (.slice [.iface .int (.int 1), .iface .int (.int 2)]), none)] := by
    simp only [fromAll, handlerCount, List.zipWith_cons_cons, List.zipWith_nil_right, from_dyn]
    rw [convert_direct _ _ _ (by decide) (by decide), Convert_slice_slice .iface .iface _ rfl]
  refine ⟨h1, ?_, h2, ?_, rfl⟩
  · have hc := convertArgs_ok handlerLen.In
      [.dyn (.slice .iface) (.slice [.iface .int (.int 1)])] rfl
      (by rw [h1]; intro r hr; rw [List.mem_singleton] at hr; rw [hr])
    rw [h1] at hc
    simp only [Invoke, Handler.NumIn, hc]
    rfl
  · have hc := convertArgs_ok handlerCount.In
      [.dyn (.slice .iface) (.slice [.iface .int (.int 1), .iface .int (.int 2)])] rfl
      (by rw [h2]; intro r hr; rw [List.mem_singleton] at hr; rw [hr])
    rw [h2] at hc
    simp only [Invoke, Handler.NumIn, hc]
    rfl

/-- The success path of C3 for a handler that is not variadic: with as many arguments
as parameters, all of which convert, argument `i` is converted against parameter type `i`
(by `convert` when it is not nil, to the zero value when it is) and the converted value has
that type, so that `Call` does not panic; `Invoke` calls the handler once, on the converted
arguments, and returns without error one result per declared return value: result `i` is
the handler's output `i` as an interface value. -/
theorem Invoke_success (f : Handler) (param : List Iface) (hv : f.Variadic = false)
    (hlen : param.length = f.NumIn) (hall : ∀ r ∈ fromAll f.In param, r.2 = none) :
    Invoke f param =
      { out := some (collectOut (f.Body ((fromAll f.In param).map Prod.fst)) f.NumOut),
        err := none, calls := [(fromAll f.In param).map Prod.fst], converted := f.NumIn } ∧
    (∀ (i : Nat) (p : Iface) (t : GoType), param[i]? = some p → f.In[i]? = some t →
      ((fromAll f.In param).map Prod.fst)[i]? = some (from_ p t).1 ∧
      (∃ d : Data, (from_ p t).1 = .mk t d) ∧
      (∀ (vt : GoType) (d : Data), p = .dyn vt d → from_ p t = convert (.mk vt d) t) ∧
      (p = .nil → (from_ p t).1 = Zero t)) ∧
    f.Call ((fromAll f.In param).map Prod.fst)
      = some (f.Body ((fromAll f.In param).map Prod.fst)) ∧
    (collectOut (f.Body ((fromAll f.In param).map Prod.fst)) f.NumOut).length = f.Out.length ∧
    ∀ i, i < f.Out.length →
      (collectOut (f.Body ((fromAll f.In param).map Prod.fst)) f.NumOut)[i]? =
        some (((f.Body ((fromAll f.In param).map Prod.fst)).getD i .invalid).Interface) := by
  refine ⟨Invoke_of_ok f hv param hlen hall, ?_, ?_, collectOut_length _ _,
    fun i hi => collectOut_get _ _ i hi⟩
  · intro i p t hp ht
    refine ⟨?_, ?_, ?_, ?_⟩
    · simp [fromAll, List.getElem?_zipWith, hp, ht]
    · cases p with
      | nil => exact ⟨_, rfl⟩
      | dyn vt d => exact ⟨_, convert_mk_data _ _⟩
    · intro vt d hpd
      rw [hpd]
      rfl
    · intro hpn
      rw [hpn]
      rfl
  · simp only [Handler.Call, callArgs_of_typed f hv _ (fromAll_typed f.In param hlen),
      Option.map_some']

theorem fromAll_add_3_4 :
    fromAll handlerAdd.In [.dyn .int (.int 3), .dyn .int (.int 4)] =
      [(.mk .int (.int 3), none), (.mk .int (.int 4), none)] := by
  simp only [fromAll, handlerAdd, List.zipWith_cons_cons, List.zipWith_nil_right, from_dyn,
    convert_scalar_self .int (.int 3) rfl (by decide),
    convert_scalar_self .int (.int 4) rfl (by decide)]

theorem Invoke_success_witness :
    Invoke handlerAdd [.dyn .int (.int 3), .dyn .int (.int 4)] =
      { out := some [.dyn .int (.int 7)], err := none,
        calls := [[.mk .int (.int 3), .mk .int (.int 4)]], converted := 2 } := by
  have h := (Invoke_success handlerAdd [.dyn .int (.int 3), .dyn .int (.int 4)] rfl rfl (by
    rw [fromAll_add_3_4]
    intro r hr
    simp only [List.mem_cons, List.mem_singleton, List.not_mem_nil, or_false] at hr
    rcases hr with rfl | rfl <;> rfl)).1
  rw [h, fromAll_add_3_4]
  rfl

/-- C4. Nil against an optional: the nil argument, and a nil that sits in a sequence, a
mapping or the source of a record (an interface value holding nil), converts against every
pointer type without error to the nil pointer; against a type of any other kind it fails
with the error "Can't pass nil for non-ptr parameter". -/
theorem nil_to_optional :
    (∀ e : GoType,
      from_ .nil (.ptr e) = (.mk (.ptr e) .nilPtr, none) ∧
      convert (.mk .iface .nilIface) (.ptr e) = (.mk (.ptr e) .nilPtr, none)) ∧
    (∀ t : GoType, t.Kind ≠ .Ptr →
      (from_ .nil t).2 = some .NilForNonPtr ∧
      (convert (.mk .iface .nilIface) t).2 = some .NilForNonPtr) ∧
    (∀ (xs : List Data) (i : Nat), xs[i]? = some .nilIface →
      (Value.mk (.slice .iface) (.slice xs)).Index i = .mk .iface .nilIface) ∧
    (∀ (kvs : List (String × Data)) (k : String), kvs.lookup k = some .nilIface →
      (Value.mk (.map .iface) (.map kvs)).MapIndex k = .mk .iface .nilIface) := by
  refine ⟨fun e => ⟨rfl, ?_⟩, fun t ht => ⟨?_, ?_⟩, ?_, ?_⟩
  · rw [convert_nilIface]; rfl
  · simp [from_, ht]
  · rw [convert_nilIface]; simp [ht]
  · intro xs i h; simp [Value.Index, h]
  · intro kvs k h; simp [Value.MapIndex, h]

theorem nil_to_optional_witness :
    Invoke handlerGreet [.nil] =
      { out := none, err := some .NilForNonPtr, calls := [], converted := 1 } :=
  Invoke_of_fail handlerGreet [.nil] rfl 0 (from_ .nil .string).1 .NilForNonPtr
    (by
      have h := (nil_to_optional.2.1 .string (by decide)).1
      simp only [fromAll, handlerGreet, List.zipWith_cons_cons, List.getElem?_cons_zero,
        Option.some.injEq]
      exact Prod.ext rfl h)
    (by intro j hj; omega)

/-- C6. Sequence conversion: when every element of a (well-typed) source slice converts
against `T`, the slice converts against `[]T` without error, to a slice of the same length
whose element `i` is the result of converting element `i` of the source against `T`. -/
theorem slice_conversion (A T : GoType) (xs : List Data)
    (hwt : (Data.slice xs).hasType (.slice A) = true)
    (hall : ∀ i : Nat, i < xs.length →
      (convert ((Value.mk (.slice A) (.slice xs)).Index i) T).2 = none) :
    ∃ ys : List Data,
      convert (.mk (.slice A) (.slice xs)) (.slice T) = (.mk (.slice T) (.slice ys), none) ∧
      ys.length = xs.length ∧
      ∀ i : Nat, i < xs.length →
        (Value.mk (.slice T) (.slice ys)).Index i
          = (convert ((Value.mk (.slice A) (.slice xs)).Index i) T).1 := by
  have hall' : ∀ (i : Nat) (hi : i < xs.length), (convert (.mk A (xs[i])) T).2 = none := by
    intro i hi
    have := hall i hi
    rwa [Index_mk_slice A xs i hi] at this
  cases hc : (GoType.slice A).ConvertibleTo (.slice T) with
  | true =>
    have hid : haveIdenticalUnderlyingType T A = true := by
      rw [← convertible_slice_slice]; exact hc
    refine ⟨xs, ?_, rfl, ?_⟩
    · rw [convert_direct _ _ _ (by simp [GoType.Kind]) hc, Convert_slice_slice A T xs hid]
    · intro i hi
      rw [Index_mk_slice T xs i hi, Index_mk_slice A xs i hi,
        convert_of_identical A T _ hid (allHaveType_get xs A hwt i hi) (hall' i hi)]
  | false =>
    have hok : ∀ x ∈ xs.map (Value.mk A), (convert x T).2 = none := by
      intro x hx
      obtain ⟨d, hd, rfl⟩ := List.mem_map.1 hx
      obtain ⟨i, hi, rfl⟩ := List.getElem_of_mem hd
      exact hall' i hi
    refine ⟨(xs.map (Value.mk A)).map (fun x => (convert x T).1.data), ?_, by simp, ?_⟩
    · rw [convert_slice_tail A T xs hc, convert2sliceLoop_ok T _ _ _ hok]
      simp
    · intro i hi
      rw [Index_mk_slice T _ i (by simpa using hi), Index_mk_slice A xs i hi]
      simp only [List.getElem_map]
      exact (convert_mk_data _ _).symm

theorem slice_conversion_witness :
    (Data.slice [.iface .int (.int 1), .iface .int64 (.int 2)]).hasType (.slice .iface) = true ∧
    ∃ ys : List Data,
      convert (.mk (.slice .iface) (.slice [.iface .int (.int 1), .iface .int64 (.int 2)]))
        (.slice .int64) = (.mk (.slice .int64) (.slice ys), none) ∧
      ys.length = 2 ∧
      ∀ i : Nat, i < 2 →
        (Value.mk (.slice .int64) (.slice ys)).Index i
          = (convert ((Value.mk (.slice .iface)
              (.slice [.iface .int (.int 1), .iface .int64 (.int 2)])).Index i) .int64).1 :=
  ⟨by decide,
    slice_conversion .iface .int64 [.iface .int (.int 1), .iface .int64 (.int 2)] (by decide)
      (by
        intro i hi
        have hcases : i = 0 ∨ i = 1 := by
          simp only [List.length_cons, List.length_nil] at hi
          omega
        rcases hcases with rfl | rfl
        · rw [Index_mk_slice _ _ 0 (by decide)]
          exact congrArg Prod.snd (convert_iface_direct .int (.int 1) .int64 (by decide))
        · rw [Index_mk_slice _ _ 1 (by decide)]
          exact congrArg Prod.snd (convert_iface_direct .int64 (.int 2) .int64 (by decide)))⟩

/-- C7, as stated, fails twice on the code. A `[]interface{}` holding nil is directly
convertible to `[]interface{}`: its element fails to convert against `interface{}`, and the
slice is still returned without error. And where the loop of `convert2slice` does fail
(here on the second element, against `[]int`), `convert` returns the error together with
the slice of the elements converted so far. -/
theorem slice_failure_counterexample :
    (convert ((Value.mk (.slice .iface) (.slice [.nilIface])).Index 0) .iface).2
      = some .NilForNonPtr ∧
    convert (.mk (.slice .iface) (.slice [.nilIface])) (.slice .iface)
      = (.mk (.slice .iface) (.slice [.nilIface]), none) ∧
    convert (.mk (.slice .iface) (.slice [.iface .int (.int 1), .nilIface])) (.slice .int)
      = (.mk (.slice .int) (.slice [.int 1]), some .NilForNonPtr) := by
  refine ⟨?_, ?_, ?_⟩
  · rw [Index_mk_slice _ _ 0 (by decide)]
    exact congrArg Prod.snd (convert_nilIface .iface)
  · rw [convert_direct _ _ _ (by decide) (by decide), Convert_slice_slice .iface .iface _ rfl]
  · rw [convert_slice_tail _ _ _ (by decide)]
    have h := convert2sliceLoop_fail .int [.mk .iface (.iface .int (.int 1))]
      (.mk .iface .nilIface) [] .NilForNonPtr (.slice .int) []
      (by
        intro y hy
        rw [List.mem_singleton] at hy
        subst hy
        exact congrArg Prod.snd (convert_iface_direct .int (.int 1) .int (by decide)))
      (congrArg Prod.snd (convert_nilIface .int))
    simp only [List.map_cons, List.map_nil, List.nil_append,
      convert_iface_direct .int (.int 1) .int (by decide)] at h
    exact h

/-- C7, amended. When the source slice is not directly convertible to `[]T` and element
`i` is the first that fails to convert against `T`, `convert` fails with exactly the error
of element `i`; the value it returns with the error is the slice of the `i` elements
converted before, and `Invoke` drops it: it returns the nil result slice and that error,
without calling the handler. -/
theorem slice_failure (A T : GoType) (xs : List Data) :
    (GoType.slice A).ConvertibleTo (.slice T) = false →
      ∀ (i : Nat) (e : Err), i < xs.length →
        (convert ((Value.mk (.slice A) (.slice xs)).Index i) T).2 = some e →
        (∀ j : Nat, j < i →
          (convert ((Value.mk (.slice A) (.slice xs)).Index j) T).2 = none) →
        (∃ ys : List Data,
          convert (.mk (.slice A) (.slice xs)) (.slice T)
            = (.mk (.slice T) (.slice ys), some e) ∧
          ys.length = i ∧
          ∀ j : Nat, j < i →
            (Value.mk (.slice T) (.slice ys)).Index j
              = (convert ((Value.mk (.slice A) (.slice xs)).Index j) T).1) ∧
        (∀ f : Handler, f.In = [.slice T] →
          Invoke f [.dyn (.slice A) (.slice xs)]
            = { out := none, err := some e, calls := [], converted := 1 }) := by
  intro hnc i e hi hfail hprev
  have hsplit : xs.map (Value.mk A)
      = (xs.take i).map (Value.mk A) ++ Value.mk A (xs[i]) :: (xs.drop (i + 1)).map (Value.mk A) := by
    rw [← List.map_cons (Value.mk A), ← List.map_append, List.getElem_cons_drop xs i hi,
      List.take_append_drop]
  have hlen : (xs.take i).length = i := by
    rw [List.length_take]; omega
  have hpre : ∀ y ∈ (xs.take i).map (Value.mk A), (convert y T).2 = none := by
    intro y hy
    obtain ⟨d, hd, rfl⟩ := List.mem_map.1 hy
    obtain ⟨j, hj, rfl⟩ := List.getElem_of_mem hd
    rw [hlen] at hj
    have := hprev j hj
    rw [Index_mk_slice A xs j (by omega)] at this
    rwa [List.getElem_take]
  have hx : (convert (.mk A (xs[i])) T).2 = some e := by
    rwa [Index_mk_slice A xs i hi] at hfail
  have hconv : convert (.mk (.slice A) (.slice xs)) (.slice T)
      = (.mk (.slice T) (.slice (((xs.take i).map (Value.mk A)).map
          (fun y => (convert y T).1.data))), some e) := by
    rw [convert_slice_tail A T xs hnc, hsplit, convert2sliceLoop_fail T _ _ _ e _ _ hpre hx]
    simp
  refine ⟨⟨_, hconv, by simp only [List.length_map, hlen], ?_⟩, ?_⟩
  · intro j hj
    rw [Index_mk_slice T _ j (by simp only [List.length_map, hlen, hj]),
      Index_mk_slice A xs j (by omega)]
    simp only [List.getElem_map, List.getElem_take]
    exact (convert_mk_data _ _).symm
  · intro f hf
    apply Invoke_of_fail f _ (by rw [hf]; rfl) 0 _ e _ (fun j hj => absurd hj (Nat.not_lt_zero j))
    · exact (.mk (.slice T) (.slice (((xs.take i).map (Value.mk A)).map
          (fun y => (convert y T).1.data))))
    · rw [hf]
      simp only [fromAll, List.zipWith_cons_cons, List.getElem?_cons_zero, from_dyn, hconv]

theorem slice_failure_witness :
    ∃ ys : List Data,
      convert (.mk (.slice .iface) (.slice [.iface .int (.int 1), .nilIface])) (.slice .int)
        = (.mk (.slice .int) (.slice ys), some .NilForNonPtr) ∧ ys.length = 1 ∧
      ∀ j : Nat, j < 1 →
        (Value.mk (.slice .int) (.slice ys)).Index j
          = (convert ((Value.mk (.slice .iface)
              (.slice [.iface .int (.int 1), .nilIface])).Index j) .int).1 :=
  (slice_failure .iface .int [.iface .int (.int 1), .nilIface] (by decide) 1 .NilForNonPtr
    (by decide)
    (by
      rw [Index_mk_slice _ _ 1 (by decide)]
      exact congrArg Prod.snd (convert_nilIface .int))
    (by
      intro j hj
      have hj0 : j = 0 := by omega
      subst hj0
      rw [Index_mk_slice _ _ 0 (by decide)]
      exact congrArg Prod.snd (convert_iface_direct .int (.int 1) .int (by decide)))).1

/-- C8, as stated, fails on the code: a `map[string]interface{}` holding nil is directly
convertible to `map[string]interface{}` and is returned without error, although the value
under its key fails to convert against `interface{}`. -/
theorem map_conversion_counterexample :
    (convert (.mk (.map .iface) (.map [("a", .nilIface)])) (.map .iface)).2 = none ∧
    "a" ∈ (Value.mk (.map .iface) (.map [("a", .nilIface)])).MapKeys ∧
    (convert ((Value.mk (.map .iface) (.map [("a", .nilIface)])).MapIndex "a") .iface).2
      = some .NilForNonPtr := by
  refine ⟨?_, by decide, ?_⟩
  · rw [convert_direct _ _ _ (by decide) (by decide)]
  · exact congrArg Prod.snd (convert_nilIface .iface)

/-- C8, amended. A source map that is not directly convertible to `map[string]V`
converts against it without error if and only if the value under each of its keys converts
against `V`; the result then has exactly the keys of the source, and under each key the
result of converting the source's value there against `V`. -/
theorem map_conversion (A V : GoType) (kvs : List (String × Data)) :
    (GoType.map A).ConvertibleTo (.map V) = false →
      ((convert (.mk (.map A) (.map kvs)) (.map V)).2 = none ↔
        ∀ k ∈ (Value.mk (.map A) (.map kvs)).MapKeys,
          (convert ((Value.mk (.map A) (.map kvs)).MapIndex k) V).2 = none) ∧
      ((convert (.mk (.map A) (.map kvs)) (.map V)).2 = none →
        ∀ k : String, (convert (.mk (.map A) (.map kvs)) (.map V)).1.MapIndex k
          = if k ∈ (Value.mk (.map A) (.map kvs)).MapKeys
            then (convert ((Value.mk (.map A) (.map kvs)).MapIndex k) V).1 else .invalid) := by
  intro hnc
  rw [convert_map_tail A V kvs hnc]
  refine ⟨convert2mapLoop_err_iff _ _ _ _, ?_⟩
  intro hok k
  have hall := (convert2mapLoop_err_iff _ _ _ _).1 hok
  obtain ⟨kvs', h1, h2⟩ := convert2mapLoop_ok (.mk (.map A) (.map kvs)) V (kvs.map Prod.fst)
    (.map V) [] hall
  rw [h1]
  simp only [Value.MapIndex, h2 k, Value.MapKeys]
  by_cases hm : k ∈ kvs.map Prod.fst
  · simp only [hm, if_true]
    exact (convert_mk_data _ _).symm
  · simp [hm]

theorem map_conversion_witness :
    (GoType.map .iface).ConvertibleTo (.map .int64) = false ∧
    (convert (.mk (.map .iface) (.map [("a", .iface .int (.int 1))])) (.map .int64)).2 = none ∧
    (convert (.mk (.map .iface) (.map [("a", .iface .int (.int 1))])) (.map .int64)).1.MapIndex "a"
      = .mk .int64 (.int 1) := by
  have h := map_conversion .iface .int64 [("a", .iface .int (.int 1))] (by decide)
  have hconv : convert ((Value.mk (.map .iface) (.map [("a", .iface .int (.int 1))])).MapIndex "a")
      .int64 = (.mk .int64 (.int 1), none) :=
    convert_iface_direct .int (.int 1) .int64 (by decide)
  have hok : (convert (.mk (.map .iface) (.map [("a", .iface .int (.int 1))])) (.map .int64)).2
      = none := by
    rw [h.1]
    intro k hk
    have hk' : k = "a" := by simpa [Value.MapKeys] using hk
    subst hk'
    exact congrArg Prod.snd hconv
  refine ⟨by decide, hok, ?_⟩
  rw [h.2 hok "a", hconv]
  simp [Value.MapKeys]

/-- C9. Record conversion with a missing key: when a settable, named field of the record
has a lookup key the source map lacks, and every settable field declared before it
converts (its key is present with a value that converts, or, for an embedded field, the
map converts against it), the conversion fails with the error "Invalid value returned from
map by key" of that field. -/
theorem struct_missing_key (A : GoType) (kvs : List (String × Data)) (fs : List Field)
    (i : Nat) (ft : Field) (hf : fs[i]? = some ft) (hset : ft.Exported = true)
    (hnamed : ft.Anonymous = false)
    (hmiss : lookupKey ft ∉ (Value.mk (.map A) (.map kvs)).MapKeys)
    (hprev : ∀ (j : Nat) (g : Field), j < i → fs[j]? = some g → g.Exported = true →
      (fieldStep (.mk (.map A) (.map kvs)) g).2 = none) :
    (convert (.mk (.map A) (.map kvs)) (.struct fs)).2 = some (.InvalidMapKey ft) := by
  obtain ⟨hi, hget⟩ := List.getElem?_eq_some_iff.1 hf
  have hsplit : fs = fs.take i ++ ft :: fs.drop (i + 1) := by
    rw [← hget, List.getElem_cons_drop fs i hi, List.take_append_drop]
  have hlen : (fs.take i).length = i := by
    rw [List.length_take]; omega
  rw [convert_struct_tail, hsplit]
  apply convert2structLoop_fail _ _ _ _ _ _ _ _ hset
  · rw [fieldStep_missing _ ft hnamed (MapIndex_invalid_of_not_mem A kvs _ hmiss)]
  · intro g hg hgset
    obtain ⟨j, hj, rfl⟩ := List.getElem_of_mem hg
    rw [hlen] at hj
    apply hprev j _ hj _ hgset
    rw [List.getElem_take, List.getElem?_eq_getElem]

theorem struct_missing_key_witness :
    (convert (.mk (.map .iface) (.map [("A", .iface .int (.int 1))])) tyAX).2
      = some (.InvalidMapKey ⟨"X", "x", false, true, .string⟩) :=
  struct_missing_key .iface [("A", .iface .int (.int 1))] _ 1 ⟨"X", "x", false, true, .string⟩
    rfl rfl rfl (by decide)
    (by
      intro j g hj hg _
      have hj0 : j = 0 := by omega
      subst hj0
      rw [List.getElem?_cons_zero] at hg
      cases hg
      rw [fieldStep_named (.mk (.map .iface) (.map [("A", .iface .int (.int 1))]))
        ⟨"A", "", false, true, .int⟩ rfl .iface (.iface .int (.int 1)) rfl]
      exact congrArg Prod.snd (convert_iface_direct .int (.int 1) .int (by decide)))

theorem convert_mapAB_tyInner :
    convert mapAB tyInner = (.mk tyInner (.struct [.int 1, .int 2]), none) := by
  have ha : fieldStep mapAB ⟨"A", "a", false, true, .int⟩ = (.mk .int (.int 1), none) := by
    rw [fieldStep_named mapAB ⟨"A", "a", false, true, .int⟩ rfl .iface (.iface .int (.int 1))
      rfl]
    exact convert_iface_direct .int (.int 1) .int (by decide)
  have hb : fieldStep mapAB ⟨"B", "b", false, true, .int⟩ = (.mk .int (.int 2), none) := by
    rw [fieldStep_named mapAB ⟨"B", "b", false, true, .int⟩ rfl .iface (.iface .int (.int 2))
      rfl]
    exact convert_iface_direct .int (.int 2) .int (by decide)
  unfold mapAB tyInner at *
  rw [convert_struct_tail, convert2structLoop_eq, ha]
  simp only [Bool.true_eq_false, if_false, Value.SetField, ZeroFields, ZeroData, List.set]
  rw [convert2structLoop_eq, hb]
  simp only [Bool.true_eq_false, if_false, Value.SetField, List.set]
  rw [convert2structLoop]

/-- C10, as stated, fails on the code: in `struct { inner }` the embedded field is not
exported, so it cannot be set and `convert2struct` skips it. The conversion succeeds and
the embedded field keeps its zero value, while converting the map against the embedded
type gives the record with `a` and `b` taken from the map. -/
theorem embedded_promotion_counterexample :
    (convert mapAB tyOuterHidden).2 = none ∧
    (convert mapAB tyOuterHidden).1.Field 0 = .mk tyInner (.struct [.int 0, .int 0]) ∧
    convert mapAB tyInner = (.mk tyInner (.struct [.int 1, .int 2]), none) := by
  have h : convert mapAB tyOuterHidden
      = (.mk tyOuterHidden (.struct [.struct [.int 0, .int 0]]), none) := by
    unfold mapAB tyOuterHidden
    rw [convert_struct_tail, convert2structLoop_eq]
    simp only [if_true]
    rw [convert2structLoop]
    rfl
  rw [h]
  exact ⟨rfl, rfl, convert_mapAB_tyInner⟩

/-- C10, amended. For a record with a settable (exported) embedded field at position `i`,
whose own record has the two settable named fields `fa` and `fb`: when the conversion of
the map `m` against the record succeeds, the embedded field holds the result of converting
the whole map `m` against the embedded record, whose fields are the results of converting
the values of `m` under the keys of `fa` and `fb`; and that result is the same for every
map with the same values under these two keys, so nothing else of `m` is required or
consulted, an entry under the embedded field's own name included. A field that cannot be
set, embedded or not, is skipped: it holds the zero value of its type. -/
theorem embedded_promotion (A : GoType) (kvs : List (String × Data)) (fs : List Field)
    (i : Nat) (name tag : String) (fa fb : Field)
    (hf : fs[i]? = some ⟨name, tag, true, true, .struct [fa, fb]⟩)
    (ha : fa.Exported = true ∧ fa.Anonymous = false)
    (hb : fb.Exported = true ∧ fb.Anonymous = false)
    (hok : (convert (.mk (.map A) (.map kvs)) (.struct fs)).2 = none) :
    (convert (.mk (.map A) (.map kvs)) (.struct fs)).1.Field i
      = (convert (.mk (.map A) (.map kvs)) (.struct [fa, fb])).1 ∧
    convert (.mk (.map A) (.map kvs)) (.struct [fa, fb])
      = (.mk (.struct [fa, fb]) (.struct
          [(convert ((Value.mk (.map A) (.map kvs)).MapIndex (lookupKey fa)) fa.Typ).1.data,
           (convert ((Value.mk (.map A) (.map kvs)).MapIndex (lookupKey fb)) fb.Typ).1.data]),
         none) ∧
    (∀ (A' : GoType) (kvs' : List (String × Data)),
      (Value.mk (.map A') (.map kvs')).MapIndex (lookupKey fa)
        = (Value.mk (.map A) (.map kvs)).MapIndex (lookupKey fa) →
      (Value.mk (.map A') (.map kvs')).MapIndex (lookupKey fb)
        = (Value.mk (.map A) (.map kvs)).MapIndex (lookupKey fb) →
      convert (.mk (.map A') (.map kvs')) (.struct [fa, fb])
        = convert (.mk (.map A) (.map kvs)) (.struct [fa, fb])) ∧
    (∀ (j : Nat) (g : Field), fs[j]? = some g → g.Exported = false →
      (convert (.mk (.map A) (.map kvs)) (.struct fs)).1.Field j = Zero g.Typ) := by
  obtain ⟨hi, hget⟩ := List.getElem?_eq_some_iff.1 hf
  -- the loop over the fields of the outer record
  obtain ⟨ds', h1, h2, _, h4⟩ := convert2structLoop_spec (.mk (.map A) (.map kvs))
    (.struct fs) fs 0 (ZeroFields fs)
  rw [← convert_struct_tail] at h1 h4
  have hstep := (h4 hok i _ hf).1 rfl
  rw [fieldStep_embedded _ _ rfl] at hstep
  simp only at hstep
  have hfield : ds'[i]? = some (convert (.mk (.map A) (.map kvs)) (.struct [fa, fb])).1.data := by
    have := hstep.2 (by rw [length_ZeroFields]; omega)
    rwa [Nat.zero_add] at this
  -- the loop over the two fields of the embedded record
  have hloop : ∀ (A' : GoType) (kvs' : List (String × Data)),
      convert (.mk (.map A') (.map kvs')) (.struct [fa, fb])
        = match fieldStep (.mk (.map A') (.map kvs')) fa with
          | (_, some err) => (.mk (.struct [fa, fb]) (.struct [ZeroData fa.Typ, ZeroData fb.Typ]),
              some err)
          | (ca, none) =>
            match fieldStep (.mk (.map A') (.map kvs')) fb with
            | (_, some err) =>
              ((Value.mk (.struct [fa, fb])
                (.struct [ZeroData fa.Typ, ZeroData fb.Typ])).SetField 0 ca, some err)
            | (cb, none) =>
              (((Value.mk (.struct [fa, fb])
                (.struct [ZeroData fa.Typ, ZeroData fb.Typ])).SetField 0 ca).SetField 1 cb,
                none) := by
    intro A' kvs'
    rw [convert_struct_tail, convert2structLoop_eq]
    simp only [ha.1, Bool.true_eq_false, if_false, ZeroFields]
    rcases fieldStep (.mk (.map A') (.map kvs')) fa with ⟨ca, _ | ea⟩
    · simp only
      rw [convert2structLoop_eq]
      simp only [hb.1, Bool.true_eq_false, if_false]
      rcases fieldStep (.mk (.map A') (.map kvs')) fb with ⟨cb, _ | eb⟩
      · simp only
        rw [convert2structLoop]
      · rfl
    · rfl
  have hstepEq : ∀ (A' : GoType) (kvs' : List (String × Data)) (g : Field),
      g.Anonymous = false →
      (Value.mk (.map A') (.map kvs')).MapIndex (lookupKey g)
        = (Value.mk (.map A) (.map kvs)).MapIndex (lookupKey g) →
      fieldStep (.mk (.map A') (.map kvs')) g = fieldStep (.mk (.map A) (.map kvs)) g := by
    intro A' kvs' g hg hm
    simp [fieldStep, hg, hm]
  have hzero : ∀ (j : Nat) (g : Field), fs[j]? = some g → g.Exported = false →
      (convert (.mk (.map A) (.map kvs)) (.struct fs)).1.Field j = Zero g.Typ := by
    intro j g hg hexp
    have hz := (h4 hok j g hg).2 hexp
    rw [Nat.zero_add, ZeroFields_getElem? fs j g hg] at hz
    rw [h1]
    simp only [Value.Field, hg, hz]
    rfl
  refine ⟨?_, ?_, ?_, hzero⟩
  · rw [h1]
    simp only [Value.Field, hf, hfield]
    exact (convert_mk_data _ _).symm
  · have hE := hstep.1
    rw [hloop A kvs] at hE ⊢
    cases hma : (Value.mk (.map A) (.map kvs)).MapIndex (lookupKey fa) with
    | invalid =>
      rw [fieldStep_missing _ fa ha.2 hma] at hE
      simp at hE
    | mk ta da =>
      rw [fieldStep_named _ fa ha.2 ta da hma] at hE ⊢
      rcases hca : convert (.mk ta da) fa.Typ with ⟨ca, _ | ea⟩
      · rw [hca] at hE
        simp only at hE ⊢
        cases hmb : (Value.mk (.map A) (.map kvs)).MapIndex (lookupKey fb) with
        | invalid =>
          rw [fieldStep_missing _ fb hb.2 hmb] at hE
          simp at hE
        | mk tb db =>
          rw [fieldStep_named _ fb hb.2 tb db hmb] at hE ⊢
          rcases hcb : convert (.mk tb db) fb.Typ with ⟨cb, _ | eb⟩
          · have hcam : ca = .mk fa.Typ ca.data := by
              have := convert_mk_data (.mk ta da) fa.Typ
              rwa [hca] at this
            have hcbm : cb = .mk fb.Typ cb.data := by
              have := convert_mk_data (.mk tb db) fb.Typ
              rwa [hcb] at this
            simp only
            rw [hcam, hcbm]
            rfl
          · rw [hcb] at hE
            simp at hE
      · rw [hca] at hE
        simp at hE
  · intro A' kvs' hma hmb
    rw [hloop A' kvs', hloop A kvs, hstepEq A' kvs' fa ha.2 hma, hstepEq A' kvs' fb hb.2 hmb]

theorem embedded_promotion_witness :
    (convert mapAB tyOuter).2 = none ∧
    (convert mapAB tyOuter).1.Field 0 = .mk tyInner (.struct [.int 1, .int 2]) := by
  have hconv : convert mapAB tyOuter
      = (.mk tyOuter (.struct [.struct [.int 1, .int 2]]), none) := by
    have hstep : fieldStep mapAB ⟨"Inner", "", true, true, tyInner⟩
        = (.mk tyInner (.struct [.int 1, .int 2]), none) := by
      rw [fieldStep_embedded _ _ rfl]
      exact convert_mapAB_tyInner
    unfold mapAB tyOuter at *
    rw [convert_struct_tail, convert2structLoop_eq, hstep]
    simp only [Bool.true_eq_false, if_false, Value.SetField, ZeroFields, ZeroData, List.set]
    rw [convert2structLoop]
  have hok : (convert mapAB tyOuter).2 = none := by rw [hconv]
  have h := (embedded_promotion .iface
    [("a", .iface .int (.int 1)), ("b", .iface .int (.int 2))]
    [⟨"Inner", "", true, true, tyInner⟩] 0 "Inner" ""
    ⟨"A", "a", false, true, .int⟩ ⟨"B", "b", false, true, .int⟩ rfl ⟨rfl, rfl⟩ ⟨rfl, rfl⟩ hok).1
  refine ⟨hok, ?_⟩
  have h' : (convert mapAB tyOuter).1.Field 0 = (convert mapAB tyInner).1 := h
  rw [h', convert_mapAB_tyInner]

/-- C11, as stated, fails on the code: the value `3` of type `int` converts against `int`
to itself, and against `*int` the conversion fails, with "Unsupported Element Type: int":
once the value is not directly convertible to the pointer type, only a struct, a map or a
slice is converted under the pointer. -/
theorem optional_target_counterexample :
    convert (.mk .int (.int 3)) .int = (.mk .int (.int 3), none) ∧
    convert (.mk .int (.int 3)) (.ptr .int)
      = (.mk (.ptr .int) (.ptr (.int 0)), some (.UnsupportedElementType .Int)) := by
  refine ⟨convert_scalar_self .int (.int 3) rfl (by decide), ?_⟩
  have h := convert_tail_ptrN .int (.int 3) 1 .int (by decide) (by decide) (by decide)
  rw [dispatch_other _ _ (by decide) (by decide) (by decide)] at h
  exact h

/-- C11, amended. For a value `v` that is not nil and whose type is not directly
convertible to the pointer type `*T`: when `v` is not directly convertible to `T` either,
the conversion against `*T` returns the error of the conversion against `T` and, for the
value `x` of that conversion, the pointer to a fresh box holding `x` (so it succeeds with
the box of `x` when the conversion against `T` succeeds with `x`); when `T` is a scalar
type, the conversion against `*T` fails with "Unsupported Element Type". A value held in an
interface converts as the value itself. -/
theorem optional_target (vt : GoType) (d : Data) (T : GoType) (hk : vt.Kind ≠ .Interface)
    (h2 : vt.ConvertibleTo (.ptr T) = false) :
    (vt.ConvertibleTo T = false → ∀ (x : Data) (e : Option Err),
      convert (.mk vt d) T = (.mk T x, e) →
      convert (.mk vt d) (.ptr T) = (.mk (.ptr T) (.ptr x), e)) ∧
    (T.isScalar = true →
      convert (.mk vt d) (.ptr T)
        = (.mk (.ptr T) (.ptr (ZeroData T)), some (.UnsupportedElementType T.Kind))) ∧
    convert (.mk .iface (.iface vt d)) (.ptr T) = convert (.mk vt d) (.ptr T) := by
  refine ⟨?_, ?_, convert_iface_unwrap vt d _ hk⟩
  · intro h1 x e hx
    have h := convert_under_ptrN vt d T 1 hk h1 h2
    rw [hx] at h
    exact h
  · intro hs
    have hb : T.Kind ≠ .Ptr ∧ T.Kind ≠ .Struct ∧ T.Kind ≠ .Map ∧ T.Kind ≠ .Slice := by
      cases T <;> simp_all [GoType.isScalar, GoType.Kind]
    have h := convert_tail_ptrN vt d 1 T hk hb.1 h2
    rw [dispatch_other _ _ hb.2.1 hb.2.2.1 hb.2.2.2] at h
    exact h

theorem optional_target_witness :
    convert (.mk (.slice .iface) (.slice [.iface .int (.int 1)])) (.ptr (.slice .int64))
      = (.mk (.ptr (.slice .int64)) (.ptr (.slice [.int 1])), none) :=
  (optional_target (.slice .iface) (.slice [.iface .int (.int 1)]) (.slice .int64) (by decide)
    (by decide)).1 (by decide) _ _ convert_seq_one

/-- C13, as stated, fails on the code: the slice `[]interface{}{nil}` is directly
convertible to `[]interface{}` and converts against it to itself, without its elements
being converted; under a pointer it goes through `convert2slice`, where the nil element
fails against `interface{}`. -/
theorem chained_indirection_counterexample :
    convert (.mk (.slice .iface) (.slice [.nilIface])) (.slice .iface)
      = (.mk (.slice .iface) (.slice [.nilIface]), none) ∧
    convert (.mk (.slice .iface) (.slice [.nilIface])) (GoType.ptrN 1 (.slice .iface))
      = (.mk (.ptr (.slice .iface)) (.ptr (.slice [])), some .NilForNonPtr) := by
  refine ⟨?_, ?_⟩
  · rw [convert_direct _ _ _ (by decide) (by decide), Convert_slice_slice .iface .iface _ rfl]
  · rw [convert_tail_ptrN _ _ 1 (.slice .iface) (by decide) (by decide) (by decide),
      dispatch_slice]
    have h := convert2sliceLoop_fail .iface [] (.mk .iface .nilIface) [] .NilForNonPtr
      (.slice .iface) [] (by intro y hy; cases hy)
      (congrArg Prod.snd (convert_nilIface .iface))
    simp only [List.map_cons, List.map_nil, List.nil_append] at h ⊢
    rw [h]
    rfl

/-- C13, amended. For every depth `k`, every target `T` and every map or slice `v` that is
not directly convertible to `T`: the conversion of `v` against `T` under `k` pointers
returns the error of the conversion against `T` and, for the value `x` of that conversion,
`x` in exactly `k` boxes, one in the next (so it succeeds with `x` in `k` boxes when the
conversion against `T` succeeds with `x`). A map is never directly convertible to a
struct type, so for a record target the hypothesis always holds. -/
theorem chained_indirection (k : Nat) (vt : GoType) (d : Data) (T : GoType)
    (hshape : vt.Kind = .Map ∨ vt.Kind = .Slice) (hnc : vt.ConvertibleTo T = false)
    (x : Data) (e : Option Err) (h : convert (.mk vt d) T = (.mk T x, e)) :
    convert (.mk vt d) (GoType.ptrN k T) = (.mk (GoType.ptrN k T) (Data.ptrN k x), e) ∧
    (derefLoop (GoType.ptrN k T) 0).1 = (derefLoop T 0).1 + k ∧
    ∀ (A : GoType) (fs : List Field), (GoType.map A).ConvertibleTo (.struct fs) = false := by
  have hk : vt.Kind ≠ .Interface := by
    rcases hshape with h' | h' <;> rw [h'] <;> decide
  have hp : vt.Kind ≠ .Ptr := by
    rcases hshape with h' | h' <;> rw [h'] <;> decide
  refine ⟨?_, ?_, not_convertible_map_struct⟩
  · have hc := convert_under_ptrN vt d T k hk hnc (not_convertible_to_ptrN vt T k hp hnc)
    rw [h] at hc
    exact hc
  · rw [derefLoop_ptrN_add, Nat.zero_add]
    have := derefLoop_add T 0 k
    rw [Nat.zero_add] at this
    rw [this]

theorem chained_indirection_witness :
    convert mapAB (.ptr (.ptr tyInner))
      = (.mk (.ptr (.ptr tyInner)) (.ptr (.ptr (.struct [.int 1, .int 2]))), none) :=
  (chained_indirection 2 (.map .iface)
    (.map [("a", .iface .int (.int 1)), ("b", .iface .int (.int 2))]) tyInner (Or.inl rfl)
    (by decide) _ _ convert_mapAB_tyInner).1

/-- C14. Shape mismatch: a value that is not nil and not directly convertible to the
target fails against a slice target with "Only Slice not ... convertible to slice" when it
is no slice, and against a map target or a struct target with "Only Map not ...
convertible to map" or "... to struct" when it is no map; the same holds with the target
under `k` pointers. A value held in an interface converts as the value itself. -/
theorem shape_mismatch (vt : GoType) (d : Data) (hk : vt.Kind ≠ .Interface) (k : Nat) :
    (∀ T : GoType, vt.ConvertibleTo (GoType.ptrN k (.slice T)) = false → vt.Kind ≠ .Slice →
      convert (.mk vt d) (GoType.ptrN k (.slice T))
        = (.mk (GoType.ptrN k (.slice T)) (Data.ptrN k (.slice [])),
            some (.OnlySliceToSlice vt.Kind))) ∧
    (∀ V : GoType, vt.ConvertibleTo (GoType.ptrN k (.map V)) = false → vt.Kind ≠ .Map →
      convert (.mk vt d) (GoType.ptrN k (.map V))
        = (.mk (GoType.ptrN k (.map V)) (Data.ptrN k (.map [])),
            some (.OnlyMapToMap vt.Kind))) ∧
    (∀ fs : List Field, vt.ConvertibleTo (GoType.ptrN k (.struct fs)) = false →
      vt.Kind ≠ .Map →
      convert (.mk vt d) (GoType.ptrN k (.struct fs))
        = (.mk (GoType.ptrN k (.struct fs)) (Data.ptrN k (.struct (ZeroFields fs))),
            some (.OnlyMapToStruct vt.Kind))) ∧
    (∀ t : GoType, convert (.mk .iface (.iface vt d)) t = convert (.mk vt d) t) := by
  refine ⟨?_, ?_, ?_, fun t => convert_iface_unwrap vt d t hk⟩
  · intro T hnc hs
    rw [convert_tail_ptrN vt d k _ hk (by simp [GoType.Kind]) hnc,
      dispatch_slice_mismatch _ T (by simpa [Value.Kind] using hs)]
    simp only [Zero, ZeroData, rewrap_mk]
    rfl
  · intro V hnc hs
    rw [convert_tail_ptrN vt d k _ hk (by simp [GoType.Kind]) hnc,
      dispatch_map_mismatch _ V (by simpa [Value.Kind] using hs)]
    simp only [Zero, ZeroData, rewrap_mk]
    rfl
  · intro fs hnc hs
    rw [convert_tail_ptrN vt d k _ hk (by simp [GoType.Kind]) hnc,
      dispatch_struct_mismatch _ fs (by simpa [Value.Kind] using hs)]
    simp only [Zero, ZeroData, rewrap_mk]
    rfl

theorem shape_mismatch_witness :
    convert (.mk .int (.int 3)) (.slice .int)
      = (.mk (.slice .int) (.slice []), some (.OnlySliceToSlice .Int)) ∧
    convert (.mk .string (.str "x")) (.ptr tyAX)
      = (.mk (.ptr tyAX) (.ptr (.struct [.int 0, .str ""])), some (.OnlyMapToStruct .String)) :=
  ⟨(shape_mismatch .int (.int 3) (by decide) 0).1 .int (by decide) (by decide),
    (shape_mismatch .string (.str "x") (by decide) 1).2.2.1 _ (by decide) (by decide)⟩

/-- C15. Unsupported target kind: when the target is, under `k` pointers, a type `b` that
is no pointer, struct, map or slice (a function, a channel, a scalar, an interface), a
value that is not nil and not directly convertible to the target fails with "Unsupported
Element Type" of the kind of `b`. A value held in an interface converts as the value
itself. -/
theorem unsupported_target_kind (vt : GoType) (d : Data) (k : Nat) (b : GoType)
    (hk : vt.Kind ≠ .Interface)
    (hb : b.Kind ≠ .Ptr ∧ b.Kind ≠ .Struct ∧ b.Kind ≠ .Map ∧ b.Kind ≠ .Slice)
    (hnc : vt.ConvertibleTo (GoType.ptrN k b) = false) :
    convert (.mk vt d) (GoType.ptrN k b)
      = (.mk (GoType.ptrN k b) (Data.ptrN k (ZeroData b)),
          some (.UnsupportedElementType b.Kind)) ∧
    (derefLoop (GoType.ptrN k b) 0).2 = b ∧
    convert (.mk .iface (.iface vt d)) (GoType.ptrN k b) = convert (.mk vt d) (GoType.ptrN k b) := by
  refine ⟨?_, by rw [derefLoop_ptrN_base k b hb.1], convert_iface_unwrap vt d _ hk⟩
  rw [convert_tail_ptrN vt d k b hk hb.1 hnc, dispatch_other _ _ hb.2.1 hb.2.2.1 hb.2.2.2]
  simp only [Zero, rewrap_mk]

theorem unsupported_target_kind_witness :
    convert (.mk .int (.int 3)) (.func 0)
      = (.mk (.func 0) (.ref 0), some (.UnsupportedElementType .Func)) ∧
    convert (.mk .string (.str "x")) (.ptr .int)
      = (.mk (.ptr .int) (.ptr (.int 0)), some (.UnsupportedElementType .Int)) :=
  ⟨(unsupported_target_kind .int (.int 3) 0 (.func 0) (by decide) (by decide) (by decide)).1,
    (unsupported_target_kind .string (.str "x") 1 .int (by decide) (by decide) (by decide)).1⟩

/-- C12. `ComposeTask` returns no error, and a task with the given name and the given
arguments: as many, in the same order (and with the identifier the generator returned). -/
theorem ComposeTask_bundles (newV4 : String) (name : String) (args : List Iface) :
    (ComposeTask newV4 name args).2 = none ∧
    (ComposeTask newV4 name args).1.Name = name ∧
    (ComposeTask newV4 name args).1.Args = args ∧
    (ComposeTask newV4 name args).1.Args.length = args.length ∧
    (∀ i : Nat, (ComposeTask newV4 name args).1.Args[i]? = args[i]?) ∧
    (ComposeTask newV4 name args).1.Id = newV4 :=
  ⟨rfl, rfl, rfl, rfl, fun _ => rfl, rfl⟩

/-- C16. Eager abort: when field `i` is the first settable field of the record that fails
(its key is missing, or its value, or the map for an embedded field, does not convert),
the conversion fails with exactly the error of field `i`; the fields from `i` on hold
their zero values, and the error is the same whatever fields are declared after field `i`:
they are not looked up or converted, and their errors are not reported. -/
theorem struct_eager_abort (A : GoType) (kvs : List (String × Data)) (fs : List Field)
    (i : Nat) (ft : Field) (e : Err) (hf : fs[i]? = some ft) (hset : ft.Exported = true)
    (hfail : (fieldStep (.mk (.map A) (.map kvs)) ft).2 = some e)
    (hprev : ∀ (j : Nat) (g : Field), j < i → fs[j]? = some g → g.Exported = true →
      (fieldStep (.mk (.map A) (.map kvs)) g).2 = none) :
    (convert (.mk (.map A) (.map kvs)) (.struct fs)).2 = some e ∧
    (∀ (j : Nat) (g : Field), i ≤ j → fs[j]? = some g →
      (convert (.mk (.map A) (.map kvs)) (.struct fs)).1.Field j = Zero g.Typ) ∧
    (∀ post : List Field,
      (convert (.mk (.map A) (.map kvs)) (.struct (fs.take i ++ ft :: post))).2 = some e) := by
  obtain ⟨hi, hget⟩ := List.getElem?_eq_some_iff.1 hf
  have hsplit : fs = fs.take i ++ ft :: fs.drop (i + 1) := by
    rw [← hget, List.getElem_cons_drop fs i hi, List.take_append_drop]
  have hlen : (fs.take i).length = i := by
    rw [List.length_take]; omega
  have hpre : ∀ g ∈ fs.take i, g.Exported = true →
      (fieldStep (.mk (.map A) (.map kvs)) g).2 = none := by
    intro g hg hgset
    obtain ⟨j, hj, rfl⟩ := List.getElem_of_mem hg
    rw [hlen] at hj
    apply hprev j _ hj _ hgset
    rw [List.getElem_take, List.getElem?_eq_getElem]
  have habort : ∀ post : List Field,
      ∃ ds' : List Data,
        convert (.mk (.map A) (.map kvs)) (.struct (fs.take i ++ ft :: post))
          = (.mk (.struct (fs.take i ++ ft :: post)) (.struct ds'), some e) ∧
        ∀ q : Nat, i ≤ q → ds'[q]? = (ZeroFields (fs.take i ++ ft :: post))[q]? := by
    intro post
    obtain ⟨ds', h1, _, h3⟩ := convert2structLoop_abort (.mk (.map A) (.map kvs))
      (.struct (fs.take i ++ ft :: post)) (fs.take i) ft post e 0
      (ZeroFields (fs.take i ++ ft :: post)) hpre hset hfail
    refine ⟨ds', by rw [convert_struct_tail]; exact h1, fun q hq => h3 q ?_⟩
    rw [hlen]; omega
  obtain ⟨ds', h1, h3⟩ := habort (fs.drop (i + 1))
  rw [← hsplit] at h1 h3
  refine ⟨by rw [h1], ?_, fun post => ?_⟩
  · intro j g hj hg
    rw [h1]
    simp only [Value.Field, hg, h3 j hj, ZeroFields_getElem? fs j g hg]
    rfl
  · obtain ⟨ds'', h1', _⟩ := habort post
    rw [h1']

theorem struct_eager_abort_witness :
    (convert (.mk (.map .iface) (.map [])) tyAX).2
      = some (.InvalidMapKey ⟨"A", "", false, true, .int⟩) :=
  (struct_eager_abort .iface [] _ 0 ⟨"A", "", false, true, .int⟩ _ rfl rfl
    (by rw [fieldStep_missing (.mk (.map .iface) (.map [])) ⟨"A", "", false, true, .int⟩ rfl rfl])
    (by intro j g hj; omega)).1

/-- C17, as stated, fails on the code: in `struct { x int; X int "json:\"x\"" }` the key
of the field `x`, which cannot be set, is also the key the settable field `X` is looked up
with. The map `{"x": 1}` converts, the empty map fails with the missing key of `X`: the
outcome does depend on the map holding the key of the unsettable field. -/
theorem unsettable_skipped_counterexample :
    lookupKey ⟨"x", "", false, false, .int⟩ = "x" ∧
    convert (.mk (.map .iface) (.map [("x", .iface .int (.int 1))])) tyShadow
      = (.mk tyShadow (.struct [.int 0, .int 1]), none) ∧
    (convert (.mk (.map .iface) (.map [])) tyShadow).2
      = some (.InvalidMapKey ⟨"X", "x", false, true, .int⟩) := by
  refine ⟨by decide, ?_, ?_⟩
  · have hX : fieldStep (.mk (.map .iface) (.map [("x", .iface .int (.int 1))]))
        ⟨"X", "x", false, true, .int⟩ = (.mk .int (.int 1), none) := by
      rw [fieldStep_named (.mk (.map .iface) (.map [("x", .iface .int (.int 1))]))
        ⟨"X", "x", false, true, .int⟩ rfl .iface (.iface .int (.int 1)) rfl]
      exact convert_iface_direct .int (.int 1) .int (by decide)
    unfold tyShadow
    rw [convert_struct_tail, convert2structLoop_eq]
    simp only [if_true]
    rw [convert2structLoop_eq, hX]
    simp only [Bool.true_eq_false, if_false, Value.SetField, ZeroFields, ZeroData]
    rw [convert2structLoop]
    rfl
  · unfold tyShadow
    rw [convert_struct_tail]
    exact convert2structLoop_fail (.mk (.map .iface) (.map []))
      [⟨"x", "", false, false, .int⟩] ⟨"X", "x", false, true, .int⟩ [] _ 0 _
      (by
        intro g hg hgs
        rw [List.mem_singleton] at hg
        subst hg
        cases hgs)
      rfl
      (by rw [fieldStep_missing (.mk (.map .iface) (.map [])) ⟨"X", "x", false, true, .int⟩
        rfl rfl])

/-- C17, amended. For a record with a field that cannot be set: on success that field
holds the zero value of its type; and when the key of that field is not used by the
record (it is not the lookup key of a settable named field of the record or of a record
embedded in it, every settable embedded field being a record or a pointer to one), every
map of the same type that differs from the source map only under that key (the key
absent, present, with any value) converts with the same outcome, value and error. -/
theorem unsettable_skipped (A : GoType) (kvs : List (String × Data)) (fs : List Field)
    (i : Nat) (f : Field) (hf : fs[i]? = some f) (hun : f.Exported = false) :
    ((convert (.mk (.map A) (.map kvs)) (.struct fs)).2 = none →
      (convert (.mk (.map A) (.map kvs)) (.struct fs)).1.Field i = Zero f.Typ) ∧
    (fieldsIgnore (lookupKey f) fs = true →
      ∀ kvs' : List (String × Data),
        (∀ k' : String, k' ≠ lookupKey f → kvs'.lookup k' = kvs.lookup k') →
        convert (.mk (.map A) (.map kvs')) (.struct fs)
          = convert (.mk (.map A) (.map kvs)) (.struct fs)) :=
  ⟨unsettable_field_zero A kvs fs i f hf hun,
    fun h kvs' hsame => convert_frame A kvs kvs' (lookupKey f) hsame fs h⟩

theorem unsettable_skipped_witness :
    convert (.mk (.map .iface) (.map (setEntry "x" (.iface .string (.str "junk"))
        [("A", .iface .int (.int 1))]))) tyHidden
      = convert (.mk (.map .iface) (.map [("A", .iface .int (.int 1))])) tyHidden :=
  (unsettable_skipped .iface [("A", .iface .int (.int 1))] _ 0 ⟨"x", "", false, false, .int⟩
    rfl rfl).2 (by decide) _
    (by
      intro k' hk'
      rw [lookup_setEntry]
      have hx : lookupKey ⟨"x", "", false, false, GoType.int⟩ = "x" := by decide
      rw [hx] at hk'
      simp [hk'])

/-- C20, as stated, fails on the code: in `struct { Extra }`, `Extra` being a map type,
the embedded field is no record; the whole source map is converted against it, here
directly, so an added entry under any key shows in the result. -/
theorem extra_keys_ignored_counterexample :
    convert (.mk (.map .iface) (.map [])) tyExtra
      = (.mk tyExtra (.struct [.map []]), none) ∧
    convert ((Value.mk (.map .iface) (.map [])).SetMapIndex "k"
        (.mk .iface (.iface .int (.int 1)))) tyExtra
      = (.mk tyExtra (.struct [.map [("k", .iface .int (.int 1))]]), none) := by
  have hstep : ∀ kvs : List (String × Data),
      fieldStep (.mk (.map .iface) (.map kvs)) ⟨"Extra", "", true, true, .map .iface⟩
        = (.mk (.map .iface) (.map kvs), none) := by
    intro kvs
    rw [fieldStep_embedded _ _ rfl]
    simp only
    rw [convert_direct _ _ _ (by decide) (by decide), Convert_map_map .iface .iface kvs rfl]
  have hconv : ∀ kvs : List (String × Data),
      convert (.mk (.map .iface) (.map kvs)) tyExtra
        = (.mk tyExtra (.struct [.map kvs]), none) := by
    intro kvs
    unfold tyExtra
    rw [convert_struct_tail, convert2structLoop_eq, hstep kvs]
    simp only [Bool.true_eq_false, if_false, Value.SetField, ZeroFields, ZeroData]
    rw [convert2structLoop]
    rfl
  exact ⟨hconv [], hconv _⟩

/-- C20, amended. For a record in which every settable embedded field, of the record and
of the records embedded in it, is a record or a pointer to a record, and a key `k` that is
not the lookup key of any settable named field of the record or of these embedded records:
the source map with an entry set under `k`, with any value, converts with the same outcome
(the same value and the same error) as the source map; and so does every map of the same
type that differs from the source map only under `k`. -/
theorem extra_keys_ignored (A : GoType) (kvs : List (String × Data)) (fs : List Field)
    (k : String) (h : fieldsIgnore k fs = true) :
    (∀ d : Data,
      convert ((Value.mk (.map A) (.map kvs)).SetMapIndex k (.mk A d)) (.struct fs)
        = convert (.mk (.map A) (.map kvs)) (.struct fs)) ∧
    (∀ kvs' : List (String × Data),
      (∀ k' : String, k' ≠ k → kvs'.lookup k' = kvs.lookup k') →
      convert (.mk (.map A) (.map kvs')) (.struct fs)
        = convert (.mk (.map A) (.map kvs)) (.struct fs)) := by
  refine ⟨fun d => ?_, fun kvs' hsame => convert_frame A kvs kvs' k hsame fs h⟩
  have hset : (Value.mk (.map A) (.map kvs)).SetMapIndex k (.mk A d)
      = .mk (.map A) (.map (setEntry k d kvs)) := rfl
  rw [hset]
  apply convert_frame A kvs _ k _ fs h
  intro k' hk'
  rw [lookup_setEntry]
  simp [hk']

theorem extra_keys_ignored_witness :
    fieldsIgnore "zzz" [⟨"Inner", "", true, true, tyInner⟩] = true ∧
    convert (mapAB.SetMapIndex "zzz" (.mk .iface (.iface .int (.int 9)))) tyOuter
      = (.mk tyOuter (.struct [.struct [.int 1, .int 2]]), none) := by
  refine ⟨by decide, ?_⟩
  have h := (extra_keys_ignored .iface
    [("a", .iface .int (.int 1)), ("b", .iface .int (.int 2))]
    [⟨"Inner", "", true, true, tyInner⟩] "zzz" (by decide)).1 (.iface .int (.int 9))
  have hconv : convert mapAB tyOuter
      = (.mk tyOuter (.struct [.struct [.int 1, .int 2]]), none) := by
    have hstep : fieldStep mapAB ⟨"Inner", "", true, true, tyInner⟩
        = (.mk tyInner (.struct [.int 1, .int 2]), none) := by
      rw [fieldStep_embedded _ _ rfl]
      exact convert_mapAB_tyInner
    unfold mapAB tyOuter at *
    rw [convert_struct_tail, convert2structLoop_eq, hstep]
    simp only [Bool.true_eq_false, if_false, Value.SetField, ZeroFields, ZeroData, List.set]
    rw [convert2structLoop]
  exact h.trans hconv

/-- C19. Lookup-key derivation. The key `convert2struct` computes for a named field is the
key the specification words: the field name when the json tag is empty, otherwise the
first comma-separated segment of the tag trimmed of double quotes at both ends, the field
name again when that segment is empty or `-`. The trimming takes a run of double quotes
off each end of the tag and leaves a string that neither begins nor ends with one. A named
field is converted from the entry the source map has under that key and fails without one.
In particular a settable field tagged `-` is required under its field name: a map without
an entry of that name fails with the missing key of the field, once the settable fields
declared before it convert. -/
theorem lookup_key_derivation (ft : Field) :
    lookupKey ft = specLookupKey ft.Name ft.JsonTag ∧
    (∃ a b : List Char, ft.JsonTag.data = a ++ (trimQuotes ft.JsonTag).data ++ b ∧
      (∀ c ∈ a, c = Char.ofNat 34) ∧ (∀ c ∈ b, c = Char.ofNat 34) ∧
      (trimQuotes ft.JsonTag).data.head? ≠ some (Char.ofNat 34) ∧
      (trimQuotes ft.JsonTag).data.getLast? ≠ some (Char.ofNat 34)) ∧
    (ft.Anonymous = false → ∀ v : Value,
      fieldStep v ft =
        if (v.MapIndex (specLookupKey ft.Name ft.JsonTag)).IsValid = true
        then convert (v.MapIndex (specLookupKey ft.Name ft.JsonTag)) ft.Typ
        else (.invalid, some (.InvalidMapKey ft))) ∧
    (ft.JsonTag = "-" → ft.Anonymous = false → ft.Exported = true →
      lookupKey ft = ft.Name ∧
      ∀ (A : GoType) (kvs : List (String × Data)) (pre post : List Field),
        (∀ g ∈ pre, g.Exported = true → (fieldStep (.mk (.map A) (.map kvs)) g).2 = none) →
        kvs.lookup ft.Name = none →
        (convert (.mk (.map A) (.map kvs)) (.struct (pre ++ ft :: post))).2
          = some (.InvalidMapKey ft)) := by
  refine ⟨lookupKey_eq_spec ft, trimQuotes_spec ft.JsonTag, ?_, ?_⟩
  · intro h v
    rw [← lookupKey_eq_spec]
    exact fieldStep_of_named v ft h
  · intro htag hnamed hset
    have hkey : lookupKey ft = ft.Name := by
      have hseg : firstSegment (trimQuotes "-") = "-" := by decide
      unfold lookupKey
      rw [htag]
      simp [hseg]
    refine ⟨hkey, ?_⟩
    intro A kvs pre post hpre hmiss
    rw [convert_struct_tail]
    apply convert2structLoop_fail _ _ _ _ _ _ _ hpre hset
    rw [fieldStep_missing _ ft hnamed]
    rw [hkey]
    exact MapIndex_invalid_of_lookup A kvs _ hmiss

theorem lookup_key_derivation_witness :
    lookupKey ⟨"A", "-", false, true, .int⟩ = "A" ∧
    (convert (.mk (.map .iface) (.map [("-", .iface .int (.int 1))]))
        (.struct [⟨"A", "-", false, true, .int⟩])).2
      = some (.InvalidMapKey ⟨"A", "-", false, true, .int⟩) :=
  ⟨((lookup_key_derivation ⟨"A", "-", false, true, .int⟩).2.2.2 rfl rfl rfl).1,
    ((lookup_key_derivation ⟨"A", "-", false, true, .int⟩).2.2.2 rfl rfl rfl).2 .iface
      [("-", .iface .int (.int 1))] [] [] (by simp) (by simp [List.lookup])⟩

/-- Totality of the converter on the descriptors that are finite trees. On every value and
every such descriptor `convert` returns, and what it returns is a value of the target type
without an error, or an error. The recursion is well-founded on the target descriptor
alone: `convert` is its body over itself, the body on the target `t` calls `convert` on
targets of a smaller size than `t` only, so that a run on `t` goes no deeper than the size of `t`, whatever the value is. This
holds although the call for an embedded field is on the same source map: a map against a
record that begins with a settable embedded field is converted by converting that very map
against the type of the field, a smaller target. -/
theorem convert_total (v : Value) (t : GoType) :
    ((∃ d : Data, convert v t = (.mk t d, none)) ∨ ∃ e : Err, (convert v t).2 = some e) ∧
    convert v t = convertWith convert v t ∧
    (∀ c1 c2 : Value → GoType → Value × Option Err,
      (∀ (v' : Value) (t' : GoType), t'.size < t.size → c1 v' t' = c2 v' t') →
      convertWith c1 v t = convertWith c2 v t) ∧
    (∀ (bottom : Value → GoType → Value × Option Err) (n : Nat), t.size ≤ n →
      convertIter bottom n v t = convert v t) ∧
    (∀ (A : GoType) (kvs : List (String × Data)) (ft : Field) (rest : List Field),
      ft.Anonymous = true → ft.Exported = true →
      ft.Typ.size < (GoType.struct (ft :: rest)).size ∧
      convert (.mk (.map A) (.map kvs)) (.struct (ft :: rest)) =
        match convert (.mk (.map A) (.map kvs)) ft.Typ with
        | (_, some err) => (Zero (.struct (ft :: rest)), some err)
        | (converted, none) =>
          convert2structLoop (.mk (.map A) (.map kvs)) rest 1
            ((Zero (.struct (ft :: rest))).SetField 0 converted)) := by
  refine ⟨?_, convert_eq_with v t, fun c1 c2 h => convertWith_congr c1 c2 v t h,
    fun bottom n h => convertIter_eq bottom n v t h, ?_⟩
  · obtain ⟨d, hd⟩ := convert_typ v t
    rcases hc : convert v t with ⟨r, _ | e⟩
    · rw [hc] at hd
      exact Or.inl ⟨d, by rw [show r = Value.mk t d from hd]⟩
    · exact Or.inr ⟨e, rfl⟩
  · intro A kvs ft rest ha he
    refine ⟨?_, ?_⟩
    · simp only [GoType.size, fieldsSize]
      omega
    · rw [convert_struct_tail, convert2structLoop_eq, fieldStep_embedded _ _ ha]
      simp only [he, Bool.true_eq_false, if_false]
      rfl

theorem convert_total_witness :
    tyOuter.size ≤ 7 ∧
    convertIter (fun _ t => (Zero t, none)) 7 mapAB tyOuter = convert mapAB tyOuter :=
  ⟨by simp [tyOuter, tyInner, GoType.size, fieldsSize],
    (convert_total mapAB tyOuter).2.2.2.1 _ 7
      (by simp [tyOuter, tyInner, GoType.size, fieldsSize])⟩

end Dingo
